import Mathlib

/-!
Verification of the qwen3-call-patch-proxy streaming tool-call repair engine.

The Python source (src/qwen3_call_patch_proxy/__init__.py) is embedded
shallowly: Python strings become `List Char`, Python JSON values become the
inductive `PyVal`, the standard-library `json.loads` / `json.dumps` pair is
embedded as `pyLoads` / `pyDumps`, and the per-request mutable state becomes
explicit state passing through `PState`.  Identifier generation
(`uuid.uuid4().hex`) is modelled by an oracle `us : Nat → List Char` together
with a counter threaded through the processor.
-/

set_option maxRecDepth 4000

namespace Qwen3Proxy

/-- Python strings are modelled as lists of characters. -/
abbrev Chars := List Char

/-- Whitespace characters recognised by Python's `str.strip()` (ASCII range). -/
def pyWsChar (c : Char) : Bool :=
  c = ' ' ∨ c = '\t' ∨ c = '\n' ∨ c = '\x0d' ∨ c = '\x0b' ∨ c = '\x0c'

/-- Embedding of Python `str.lstrip()`. -/
def pyLStrip (s : Chars) : Chars := s.dropWhile pyWsChar

/-- Embedding of Python `str.rstrip()`. -/
def pyRStrip (s : Chars) : Chars := (s.reverse.dropWhile pyWsChar).reverse

/-- Embedding of Python `str.strip()`. -/
def pyStrip (s : Chars) : Chars := pyRStrip (pyLStrip s)

/-- Embedding of Python `str.rstrip(',')`. -/
def rstripComma (s : Chars) : Chars := (s.reverse.dropWhile (· = ',')).reverse

/-- ASCII lower-casing, embedding Python `str.lower()` on the ASCII range. -/
def pyLowerChar (c : Char) : Char :=
  if 'A' ≤ c ∧ c ≤ 'Z' then Char.ofNat (c.toNat + 32) else c

/-- Embedding of Python `str.lower()` (ASCII range). -/
def pyLower (s : Chars) : Chars := s.map pyLowerChar

/-- Number of occurrences of a character, embedding Python `str.count`. -/
def countChar (c : Char) (s : Chars) : Nat := (s.filter (· = c)).length

/-- UTF-8 byte length of a string, embedding `len(s.encode('utf-8'))`. -/
def utf8Len (s : Chars) : Nat := (s.map (fun c => c.utf8Size)).sum

/-- Does `pat` occur as a contiguous substring of `s`?  Embeds Python's
`pat in s`. -/
def containsSub (pat : Chars) (s : Chars) : Bool :=
  match s with
  | [] => pat.isEmpty
  | _ :: rest => pat.isPrefixOf s || containsSub pat rest

/-- Lowercase hexadecimal digits, the alphabet of `uuid.uuid4().hex`. -/
def isLowerHex (c : Char) : Bool :=
  ('0' ≤ c ∧ c ≤ '9') ∨ ('a' ≤ c ∧ c ≤ 'f')

/-! ## Python JSON values

`PyVal` models the Python values that `json.loads` can produce (floats are
carried as their source text; no claim depends on float arithmetic).
Dictionaries are association lists in insertion order, matching CPython's
order-preserving `dict`. -/

inductive PyVal : Type where
  | pnone : PyVal
  | pbool : Bool → PyVal
  | pint : Int → PyVal
  | pfloat : Chars → PyVal
  | pstr : Chars → PyVal
  | plist : List PyVal → PyVal
  | pdict : List (Chars × PyVal) → PyVal
deriving Repr

open PyVal

/-- Python truthiness (`bool(v)`), as used by `if not value`. -/
def pyTruthy : PyVal → Bool
  | pnone => false
  | pbool b => b
  | pint n => n ≠ 0
  | pfloat raw => ¬(raw = ['0'] ∨ raw = ['0', '.', '0'] ∨ raw = ['-', '0', '.', '0'])
  | pstr s => ¬s.isEmpty
  | plist xs => ¬xs.isEmpty
  | pdict xs => ¬xs.isEmpty

/-- Assoc-list lookup (`d.get(k)` on a Python dict). -/
def dGet (d : List (Chars × PyVal)) (k : Chars) : Option PyVal :=
  match d with
  | [] => none
  | (k', v) :: rest => if k' = k then some v else dGet rest k

/-- Assoc-list membership (`k in d`). -/
def dHas (d : List (Chars × PyVal)) (k : Chars) : Bool :=
  match d with
  | [] => false
  | (k', _) :: rest => k' = k || dHas rest k

/-- Assoc-list assignment (`d[k] = v`): replaces in place, else appends,
matching CPython dict semantics. -/
def dSet (d : List (Chars × PyVal)) (k : Chars) (v : PyVal) : List (Chars × PyVal) :=
  match d with
  | [] => [(k, v)]
  | (k', v') :: rest => if k' = k then (k, v) :: rest else (k', v') :: dSet rest k v

/-- Assoc-list deletion (`del d[k]`). -/
def dDel (d : List (Chars × PyVal)) (k : Chars) : List (Chars × PyVal) :=
  match d with
  | [] => []
  | (k', v') :: rest => if k' = k then rest else (k', v') :: dDel rest k

/-! ## Embedding of `json.loads` (syntax and value)

A fuelled recursive-descent parser for the JSON accepted by Python's strict
`json.loads`: objects, arrays, strings with escapes, numbers, `true`,
`false`, `null`, and the constants `NaN`, `Infinity`, `-Infinity`. -/

/-- JSON inter-token whitespace (`' '`, `'\t'`, `'\n'`, `'\r'`). -/
def jsonWs (c : Char) : Bool :=
  c = ' ' ∨ c = '\t' ∨ c = '\n' ∨ c = '\x0d'

def skipWs (s : Chars) : Chars := s.dropWhile jsonWs

def hexVal (c : Char) : Option Nat :=
  if '0' ≤ c ∧ c ≤ '9' then some (c.toNat - '0'.toNat)
  else if 'a' ≤ c ∧ c ≤ 'f' then some (c.toNat - 'a'.toNat + 10)
  else if 'A' ≤ c ∧ c ≤ 'F' then some (c.toNat - 'A'.toNat + 10)
  else none

/-- Parse the body of a JSON string literal (opening quote already consumed).
Returns the decoded characters and the remaining input. -/
def parseStrBody : Chars → Option (Chars × Chars)
  | [] => none
  | '"' :: rest => some ([], rest)
  | '\\' :: esc =>
    match esc with
    | '"' :: r => (parseStrBody r).map (fun p => ('"' :: p.1, p.2))
    | '\\' :: r => (parseStrBody r).map (fun p => ('\\' :: p.1, p.2))
    | '/' :: r => (parseStrBody r).map (fun p => ('/' :: p.1, p.2))
    | 'b' :: r => (parseStrBody r).map (fun p => ('\x08' :: p.1, p.2))
    | 'f' :: r => (parseStrBody r).map (fun p => ('\x0c' :: p.1, p.2))
    | 'n' :: r => (parseStrBody r).map (fun p => ('\n' :: p.1, p.2))
    | 'r' :: r => (parseStrBody r).map (fun p => ('\x0d' :: p.1, p.2))
    | 't' :: r => (parseStrBody r).map (fun p => ('\t' :: p.1, p.2))
    | 'u' :: a :: b :: c :: d :: r =>
      match hexVal a, hexVal b, hexVal c, hexVal d with
      | some ha, some hb, some hc, some hd =>
        let n := ((ha * 16 + hb) * 16 + hc) * 16 + hd
        (parseStrBody r).map (fun p => (Char.ofNat n :: p.1, p.2))
      | _, _, _, _ => none
    | _ => none
  | c :: rest =>
    if c.toNat < 32 then none
    else (parseStrBody rest).map (fun p => (c :: p.1, p.2))

/-- Parse a JSON number at the head of the input, following Python's
`NUMBER_RE`: `(-?(?:0|[1-9]\d*))(\.\d+)?([eE][-+]?\d+)?`. -/
def parseNumber (s : Chars) : Option (PyVal × Chars) :=
  let step1 : Option (Bool × Chars × Chars) :=
    match s with
    | '-' :: r => some (true, ['-'], r)
    | _ => some (false, [], s)
  match step1 with
  | none => none
  | some (neg, sgn, s1) =>
    let intPart : Option (Chars × Chars) :=
      match s1 with
      | '0' :: r => some (['0'], r)
      | c :: r =>
        if '1' ≤ c ∧ c ≤ '9' then
          let ds := r.takeWhile Char.isDigit
          some (c :: ds, r.drop ds.length)
        else none
      | [] => none
    match intPart with
    | none => none
    | some (ip, s2) =>
      let fracPart : Chars × Chars :=
        match s2 with
        | '.' :: r =>
          let ds := r.takeWhile Char.isDigit
          if ds.isEmpty then ([], s2) else ('.' :: ds, r.drop ds.length)
        | _ => ([], s2)
      let fp := fracPart.1
      let s3 := fracPart.2
      let expPart : Chars × Chars :=
        match s3 with
        | e :: r =>
          if e = 'e' ∨ e = 'E' then
            match r with
            | sg :: r2 =>
              if sg = '+' ∨ sg = '-' then
                let ds := r2.takeWhile Char.isDigit
                if ds.isEmpty then ([], s3) else (e :: sg :: ds, r2.drop ds.length)
              else
                let ds := r.takeWhile Char.isDigit
                if ds.isEmpty then ([], s3) else (e :: ds, r.drop ds.length)
            | [] => ([], s3)
          else ([], s3)
        | [] => ([], s3)
      let ep := expPart.1
      let s4 := expPart.2
      if fp.isEmpty ∧ ep.isEmpty then
        let mag : Nat := ip.foldl (fun a c => a * 10 + (c.toNat - '0'.toNat)) 0
        some (pint (if neg then -(mag : Int) else (mag : Int)), s4)
      else
        some (pfloat (sgn ++ ip ++ fp ++ ep), s4)

/-- Checks whether `pat` is a literal head of `s`, returning the remainder. -/
def eatLit (pat : Chars) (s : Chars) : Option Chars :=
  match pat, s with
  | [], _ => some s
  | p :: ps, c :: cs => if p = c then eatLit ps cs else none
  | _ :: _, [] => none

mutual

/-- Parse one JSON value (leading whitespace already consumed). -/
def parseV : Nat → Chars → Option (PyVal × Chars)
  | 0, _ => none
  | Nat.succ n, s =>
    match s with
    | '{' :: r =>
      match skipWs r with
      | '}' :: r2 => some (pdict [], r2)
      | r2 => (parseMembers n r2 []).map (fun p => (pdict p.1, p.2))
    | '[' :: r =>
      match skipWs r with
      | ']' :: r2 => some (plist [], r2)
      | r2 => (parseItems n r2 []).map (fun p => (plist p.1, p.2))
    | '"' :: r => (parseStrBody r).map (fun p => (pstr p.1, p.2))
    | 't' :: _ => (eatLit ['t', 'r', 'u', 'e'] s).map (fun r => (pbool true, r))
    | 'f' :: _ => (eatLit ['f', 'a', 'l', 's', 'e'] s).map (fun r => (pbool false, r))
    | 'n' :: _ => (eatLit ['n', 'u', 'l', 'l'] s).map (fun r => (pnone, r))
    | 'N' :: _ => (eatLit ['N', 'a', 'N'] s).map (fun r => (pfloat ['N', 'a', 'N'], r))
    | 'I' :: _ =>
      (eatLit ['I', 'n', 'f', 'i', 'n', 'i', 't', 'y'] s).map
        (fun r => (pfloat ['i', 'n', 'f'], r))
    | '-' :: 'I' :: _ =>
      (eatLit ['-', 'I', 'n', 'f', 'i', 'n', 'i', 't', 'y'] s).map
        (fun r => (pfloat ['-', 'i', 'n', 'f'], r))
    | _ => parseNumber s

/-- Parse the members of a JSON object after the opening brace (first key
expected next, leading whitespace already consumed).  Duplicate keys keep the
first position and the last value, as `dict(pairs)` does. -/
def parseMembers : Nat → Chars → List (Chars × PyVal) →
    Option (List (Chars × PyVal) × Chars)
  | 0, _, _ => none
  | Nat.succ n, s, acc =>
    match s with
    | '"' :: r =>
      match parseStrBody r with
      | none => none
      | some (key, r2) =>
        match skipWs r2 with
        | ':' :: r3 =>
          match parseV n (skipWs r3) with
          | none => none
          | some (v, r4) =>
            let acc2 := dSet acc key v
            match skipWs r4 with
            | ',' :: r5 => parseMembers n (skipWs r5) acc2
            | '}' :: r5 => some (acc2, r5)
            | _ => none
        | _ => none
    | _ => none

/-- Parse the items of a JSON array after the opening bracket (first item
expected next, leading whitespace already consumed). -/
def parseItems : Nat → Chars → List PyVal → Option (List PyVal × Chars)
  | 0, _, _ => none
  | Nat.succ n, s, acc =>
    match parseV n s with
    | none => none
    | some (v, r) =>
      match skipWs r with
      | ',' :: r2 => parseItems n (skipWs r2) (acc ++ [v])
      | ']' :: r2 => some (acc ++ [v], r2)
      | _ => none

end

/-- Embedding of Python `json.loads`: parse a full document, requiring only
whitespace after the value.  Returns `none` where `json.loads` raises. -/
def pyLoads (s : Chars) : Option PyVal :=
  match parseV (s.length + 1) (skipWs s) with
  | none => none
  | some (v, rest) => if (skipWs rest).isEmpty then some v else none

/-- Embedding of validate_json_syntax (and of "parsing as JSON succeeds"). -/
def validate_json_syntax (s : Chars) : Bool := (pyLoads s).isSome

/-! ## Embedding of `json.dumps(obj, ensure_ascii=False)` -/

/-- Escape one character inside a serialised JSON string. -/
def dumpChar (c : Char) : Chars :=
  if c = '"' then ['\\', '"']
  else if c = '\\' then ['\\', '\\']
  else if c = '\n' then ['\\', 'n']
  else if c = '\x0d' then ['\\', 'r']
  else if c = '\t' then ['\\', 't']
  else if c = '\x08' then ['\\', 'b']
  else if c = '\x0c' then ['\\', 'f']
  else if c.toNat < 32 then
    let lo := c.toNat % 16
    let hi := c.toNat / 16
    ['\\', 'u', '0', '0',
      (if hi < 10 then Char.ofNat ('0'.toNat + hi) else Char.ofNat ('a'.toNat + hi - 10)),
      (if lo < 10 then Char.ofNat ('0'.toNat + lo) else Char.ofNat ('a'.toNat + lo - 10))]
  else [c]

/-- Serialise a string with quotes. -/
def dumpStr (s : Chars) : Chars := '"' :: (s.flatMap dumpChar) ++ ['"']

/-- Decimal digits of a natural number. -/
def natDigits (n : Nat) : Chars :=
  (Nat.toDigits 10 n).map id

/-- Serialise an integer. -/
def dumpInt (n : Int) : Chars :=
  if n < 0 then '-' :: natDigits n.natAbs else natDigits n.natAbs

/-- Interleave a separator between serialised parts. -/
def joinSep (sep : Chars) : List Chars → Chars
  | [] => []
  | [x] => x
  | x :: y :: rest => x ++ sep ++ joinSep sep (y :: rest)

mutual

/-- Embedding of `json.dumps(v, ensure_ascii=False)` with default separators. -/
def pyDumps : PyVal → Chars
  | pnone => ['n', 'u', 'l', 'l']
  | pbool true => ['t', 'r', 'u', 'e']
  | pbool false => ['f', 'a', 'l', 's', 'e']
  | pint n => dumpInt n
  | pfloat raw => raw
  | pstr s => dumpStr s
  | plist xs => '[' :: joinSep [',', ' '] (dumpsItems xs) ++ [']']
  | pdict xs => '{' :: joinSep [',', ' '] (dumpsEntries xs) ++ ['}']

def dumpsItems : List PyVal → List Chars
  | [] => []
  | v :: vs => pyDumps v :: dumpsItems vs

def dumpsEntries : List (Chars × PyVal) → List Chars
  | [] => []
  | (k, v) :: rest => (dumpStr k ++ [':', ' '] ++ pyDumps v) :: dumpsEntries rest

end

/-! ## Completeness Analyzer: `is_json_complete` -/

/-- The character-scan loop of `is_json_complete`, with the stack, the
in-string flag and the escape flag as explicit arguments.  Returns `false`
immediately on an unmatched closer, exactly as the Python loop does. -/
def jcScan : Chars → List Char → Bool → Bool → Bool
  | [], stack, inString, _ => stack.isEmpty ∧ !inString
  | c :: rest, stack, inString, escapeNext =>
    if escapeNext then jcScan rest stack inString false
    else if c = '\\' then jcScan rest stack inString true
    else if c = '"' then jcScan rest stack (!inString) escapeNext
    else if inString then jcScan rest stack inString escapeNext
    else if c = '{' ∨ c = '[' then jcScan rest (c :: stack) inString escapeNext
    else if c = '}' ∨ c = ']' then
      match stack with
      | [] => false
      | last :: stack' =>
        if (c = '}' ∧ last ≠ '{') ∨ (c = ']' ∧ last ≠ '[') then false
        else jcScan rest stack' inString escapeNext
    else jcScan rest stack inString escapeNext

/-- Embedding of `is_json_complete`. -/
def is_json_complete (s : Chars) : Bool :=
  if (pyStrip s).isEmpty then false
  else
    let t := pyStrip s
    if ¬(t.head? = some '{' ∨ t.head? = some '[') then false
    else jcScan t [] false false

/-- State of the scan described by the specification of the Completeness
Analyzer. -/
structure ScanSt where
  stack : List Char
  inStr : Bool
  pend : Bool
deriving Repr, DecidableEq

/-- One step of the scan exactly as claim C2 words it: the pending-escape
flag is set only by a backslash *while inside a string*; with pending-escape
set the next character is consumed literally; an unescaped quote toggles the
in-string flag; outside a string openers push and closers must match the top
of the stack. -/
def claimStep (st : ScanSt) (c : Char) : Option ScanSt :=
  if st.pend then some { st with pend := false }
  else if st.inStr ∧ c = '\\' then some { st with pend := true }
  else if c = '"' then some { st with inStr := !st.inStr }
  else if st.inStr then some st
  else if c = '{' ∨ c = '[' then some { st with stack := c :: st.stack }
  else if c = '}' then
    match st.stack with
    | '{' :: r => some { st with stack := r }
    | _ => none
  else if c = ']' then
    match st.stack with
    | '[' :: r => some { st with stack := r }
    | _ => none
  else some st

/-- One step of the scan with the amendment forced by the code: a backslash
sets the pending-escape flag whether or not the scan is inside a string. -/
def amendedStep (st : ScanSt) (c : Char) : Option ScanSt :=
  if st.pend then some { st with pend := false }
  else if c = '\\' then some { st with pend := true }
  else if c = '"' then some { st with inStr := !st.inStr }
  else if st.inStr then some st
  else if c = '{' ∨ c = '[' then some { st with stack := c :: st.stack }
  else if c = '}' then
    match st.stack with
    | '{' :: r => some { st with stack := r }
    | _ => none
  else if c = ']' then
    match st.stack with
    | '[' :: r => some { st with stack := r }
    | _ => none
  else some st

/-- Run a scan step function over the whole text from a given state; `none`
models "declared incomplete immediately". -/
def runScan (step : ScanSt → Char → Option ScanSt) (cs : Chars) (st : ScanSt) :
    Option ScanSt :=
  match cs with
  | [] => some st
  | c :: rest =>
    match step st c with
    | none => none
    | some st' => runScan step rest st'

/-- The completeness predicate exactly as claim C2 states it: the stripped
text begins with an opener and the claimed scan ends with an empty stack,
outside any string. -/
def claimComplete (s : Chars) : Bool :=
  let t := pyStrip s
  if t.head? = some '{' ∨ t.head? = some '[' then
    match runScan claimStep t ⟨[], false, false⟩ with
    | some st => st.stack.isEmpty && !st.inStr
    | none => false
  else false

/-- The completeness predicate of the amended claim: identical to
`claimComplete` except that a backslash sets pending-escape anywhere. -/
def amendedComplete (s : Chars) : Bool :=
  let t := pyStrip s
  if t.head? = some '{' ∨ t.head? = some '[' then
    match runScan amendedStep t ⟨[], false, false⟩ with
    | some st => st.stack.isEmpty && !st.inStr
    | none => false
  else false

/-! ## Tool Identity Inference: `infer_tool_name_from_content` -/

/-- Embedding of `infer_tool_name_from_content`.  The quoted parameter names
are matched as substrings of the raw JSON text, in the source's order. -/
def infer_tool_name_from_content (content : Chars) : Chars :=
  if content.isEmpty then []
  else if containsSub ('"' :: ("todos".data) ++ ['"']) content then "todowrite".data
  else if containsSub ('"' :: ("command".data) ++ ['"']) content ∧
      ¬containsSub ('"' :: ("edits".data) ++ ['"']) content then "bash".data
  else if containsSub ('"' :: ("file_path".data) ++ ['"']) content ∧
      containsSub ('"' :: ("edits".data) ++ ['"']) content then "multiedit".data
  else if containsSub ('"' :: ("filePath".data) ++ ['"']) content ∧
      containsSub ('"' :: ("oldString".data) ++ ['"']) content ∧
      containsSub ('"' :: ("newString".data) ++ ['"']) content then "edit".data
  else if containsSub ('"' :: ("file_path".data) ++ ['"']) content ∧
      containsSub ('"' :: ("old_string".data) ++ ['"']) content ∧
      containsSub ('"' :: ("new_string".data) ++ ['"']) content then "edit".data
  else if containsSub ('"' :: ("pattern".data) ++ ['"']) content ∧
      containsSub ('"' :: ("output_mode".data) ++ ['"']) content then "grep".data
  else if containsSub ('"' :: ("pattern".data) ++ ['"']) content then "glob".data
  else if containsSub ('"' :: ("url".data) ++ ['"']) content ∧
      containsSub ('"' :: ("prompt".data) ++ ['"']) content then "webfetch".data
  else if containsSub ('"' :: ("query".data) ++ ['"']) content then "websearch".data
  else if containsSub ('"' :: ("content".data) ++ ['"']) content ∧
      (containsSub ('"' :: ("file_path".data) ++ ['"']) content ∨
       containsSub ('"' :: ("filePath".data) ++ ['"']) content) then "write".data
  else if containsSub ('"' :: ("file_path".data) ++ ['"']) content ∨
      containsSub ('"' :: ("filePath".data) ++ ['"']) content then "read".data
  else if containsSub ('"' :: ("description".data) ++ ['"']) content ∧
      containsSub ('"' :: ("prompt".data) ++ ['"']) content ∧
      containsSub ('"' :: ("subagent_type".data) ++ ['"']) content then "task".data
  else if containsSub ('"' :: ("notebook_path".data) ++ ['"']) content ∧
      containsSub ('"' :: ("new_source".data) ++ ['"']) content then "notebookedit".data
  else if containsSub ('"' :: ("path".data) ++ ['"']) content then "list".data
  else []

/-! ## Fix Rule Engine: `ToolFixEngine` -/

mutual

/-- Python `==` on JSON-shaped values, as used by `value not in valid_values`
(`True == 1`, `False == 0`; dict comparison ignores entry order). -/
def pyEq : PyVal → PyVal → Bool
  | pnone, pnone => true
  | pbool a, pbool b => a = b
  | pbool a, pint b => (if a then (1 : Int) else 0) = b
  | pint a, pbool b => a = (if b then (1 : Int) else 0)
  | pint a, pint b => a = b
  | pfloat a, pfloat b => a = b
  | pstr a, pstr b => a = b
  | plist a, plist b => pyEqList a b
  | pdict a, pdict b => a.length = b.length && pyEqEntries a b
  | _, _ => false

def pyEqList : List PyVal → List PyVal → Bool
  | [], [] => true
  | x :: xs, y :: ys => pyEq x y && pyEqList xs ys
  | _, _ => false

def pyEqEntries : List (Chars × PyVal) → List (Chars × PyVal) → Bool
  | [], _ => true
  | (k, v) :: rest, b => pyEqFind k v b && pyEqEntries rest b

def pyEqFind : Chars → PyVal → List (Chars × PyVal) → Bool
  | _, _, [] => false
  | k, v, (k', w) :: rest => if k' = k then pyEq v w else pyEqFind k v rest

end

/-- Fuelled scan for the sub-replacement `re.sub` of `_fix_malformed_json`:
collapse doubled quotes around a quote-free span, scanning left to right.
One unit of fuel is spent per scan position, so fuel `s.length` suffices. -/
def fixQuadQuotesF : Nat → Chars → Chars
  | 0, s => s
  | Nat.succ n, s =>
    match s with
    | [] => []
    | '"' :: '"' :: rest =>
      let mid := rest.takeWhile (· ≠ '"')
      match rest.drop mid.length with
      | '"' :: '"' :: r2 => '"' :: (mid ++ '"' :: fixQuadQuotesF n r2)
      | _ => '"' :: fixQuadQuotesF n ('"' :: rest)
    | c :: rest => c :: fixQuadQuotesF n rest

/-- The sub-replacement `re.sub(r'""([^"]*?)""', r'"\1"', s)` used by
`_fix_malformed_json`. -/
def fixQuadQuotes (s : Chars) : Chars := fixQuadQuotesF s.length s

/-- Embedding of `ToolFixEngine._fix_malformed_json`: replace single quotes
by double quotes, then collapse accidentally doubled quotes. -/
def fix_malformed_json (s : Chars) : Chars :=
  if s.isEmpty then s
  else fixQuadQuotes (s.map (fun c => if c = Char.ofNat 39 then '"' else c))

/-- One declarative fix rule, the embedding of a `fix` entry of the
configuration. -/
structure FixRule where
  rname : Chars
  parameter : Chars
  condition : Chars
  action : Chars
  default_value : Option PyVal := none
  fallback_value : Option PyVal := none
  valid_values : List PyVal := []

/-- The behaviourally relevant parts of the engine's configuration. -/
structure Config where
  tools : List (Chars × List FixRule)
  case_sensitive_tools : Bool
  max_buffer_size : Nat

/-- `self.config.get('tools', {}).get(tool_name, {}).get('fixes', [])`. -/
def lookupFixes (cfg : Config) (name : Chars) : List FixRule :=
  match cfg.tools.find? (fun p => p.1 = name) with
  | some p => p.2
  | none => []

/-- Embedding of `ToolFixEngine._check_condition`. -/
def check_condition (args : List (Chars × PyVal)) (fx : FixRule) : Bool :=
  let value := dGet args fx.parameter
  if fx.condition = "is_string".data then
    match value with | some (pstr _) => true | _ => false
  else if fx.condition = "missing_or_empty".data then
    match value with | none => true | some v => !pyTruthy v
  else if fx.condition = "missing".data then !dHas args fx.parameter
  else if fx.condition = "exists".data then dHas args fx.parameter
  else if fx.condition = "invalid_enum".data then
    !(fx.valid_values.any (fun w => pyEq (value.getD pnone) w))
  else false

/-- Result of one fix application: the Python `False` / `True` /
`('write', True)` return values of `_apply_single_fix`. -/
inductive FixOut : Type where
  | plain : Bool → FixOut
  | conv : Chars → Bool → FixOut

/-- The per-rule exception handler: assign the fallback value when one is
declared, else report not-applied. -/
def fallbackOrFalse (args : List (Chars × PyVal)) (fx : FixRule) :
    List (Chars × PyVal) × FixOut :=
  match fx.fallback_value with
  | some v => (dSet args fx.parameter v, FixOut.plain true)
  | none => (args, FixOut.plain false)

/-- Embedding of `ToolFixEngine._apply_single_fix` on a dict of arguments. -/
def apply_single_fix (args : List (Chars × PyVal)) (fx : FixRule) :
    List (Chars × PyVal) × FixOut :=
  if ¬check_condition args fx then (args, FixOut.plain false)
  else if fx.action = "parse_json_array".data then
    match dGet args fx.parameter with
    | some (pstr s) =>
      match pyLoads s with
      | some v => (dSet args fx.parameter v, FixOut.plain true)
      | none =>
        match pyLoads (fix_malformed_json s) with
        | some v => (dSet args fx.parameter v, FixOut.plain true)
        | none => fallbackOrFalse args fx
    | _ => (args, FixOut.plain true)
  else if fx.action = "set_default".data then
    match fx.default_value with
    | some v => (dSet args fx.parameter v, FixOut.plain true)
    | none => fallbackOrFalse args fx
  else if fx.action = "parse_json_object".data then
    match dGet args fx.parameter with
    | some (pstr s) =>
      match pyLoads s with
      | some v => (dSet args fx.parameter v, FixOut.plain true)
      | none => fallbackOrFalse args fx
    | _ => (args, FixOut.plain true)
  else if fx.action = "convert_string_to_boolean".data then
    match dGet args fx.parameter with
    | some (pstr s) =>
      let v := pyStrip (pyLower s)
      (dSet args fx.parameter
        (pbool (v = "true".data ∨ v = "1".data ∨ v = "yes".data ∨ v = "on".data)),
       FixOut.plain true)
    | _ => (args, FixOut.plain true)
  else if fx.action = "remove_parameter".data then
    (if dHas args fx.parameter then dDel args fx.parameter else args, FixOut.plain true)
  else if fx.action = "convert_tool_to_write".data then
    if dHas args "filePath".data ∧ dHas args "content".data then
      (args, FixOut.conv "write".data true)
    else (args, FixOut.plain false)
  else (args, FixOut.plain true)

/-- The fold state of the `for fix in fixes` loop of `apply_fixes`. -/
def applyFixesLoop (fixes : List FixRule) (entries : List (Chars × PyVal))
    (name : Chars) : List (Chars × PyVal) × Chars :=
  match fixes with
  | [] => (entries, name)
  | fx :: rest =>
    let r := apply_single_fix entries fx
    match r.2 with
    | FixOut.conv nm _ => applyFixesLoop rest r.1 nm
    | FixOut.plain _ => applyFixesLoop rest r.1 name

/-- Embedding of `ToolFixEngine.apply_fixes`.  `none` models the
uncaught exception raised when fixes exist but the parsed arguments are not
a dict (`.copy()` / `.get` on a non-dict). -/
def apply_fixes (cfg : Config) (tool_name0 : Chars) (v : PyVal) :
    Option (Chars × PyVal) :=
  let tool_name := if cfg.case_sensitive_tools then tool_name0 else pyLower tool_name0
  let fixes := lookupFixes cfg tool_name
  if fixes.isEmpty then some (tool_name, v)
  else
    match v with
    | pdict entries =>
      let r := applyFixesLoop fixes entries tool_name
      some (r.2, pdict r.1)
    | _ => none

/-- Embedding of `ToolFixEngine._get_default_config` (the fallback used when
the YAML file cannot be loaded). -/
def defaultConfig : Config where
  tools :=
    [("todowrite".data,
       [{ rname := "todos_string_to_array".data,
          parameter := "todos".data,
          condition := "is_string".data,
          action := "parse_json_array".data,
          fallback_value := some (plist []) }]),
     ("bash".data,
       [{ rname := "missing_description".data,
          parameter := "description".data,
          condition := "missing_or_empty".data,
          action := "set_default".data,
          default_value := some (pstr "Execute the given shell command".data) }]),
     ("read".data,
       [{ rname := "remove_content_parameter".data,
          parameter := "content".data,
          condition := "exists".data,
          action := "remove_parameter".data }])]
  case_sensitive_tools := false
  max_buffer_size := 1048576

/-- Modelled from the spec: the bundled `tool_fixes.yaml` configuration file
(the active configuration loaded at startup) is not under src/.  Per the
spec's Fix Rule Engine section and its testable property "read→write
conversion", the read tool's active rules contain a convert-tool-identity
rule that fires when a body field is present and reports the `write` tool
when both the destination-path field (`filePath`) and the body field
(`content`) are present, retaining both fields. -/
def yamlConfig : Config where
  tools :=
    [("read".data,
       [{ rname := "convert_read_with_content_to_write".data,
          parameter := "content".data,
          condition := "exists".data,
          action := "convert_tool_to_write".data }])]
  case_sensitive_tools := false
  max_buffer_size := 1048576

/-! ## XML Tool-Call Converter: `detect_and_convert_xml_tool_call` -/

/-- Try to match `<TAGLIT>NAME>` at the head of `s` (regex `TAGLIT([^>]+)>`),
returning the raw captured name and the rest after the `>`. -/
def matchTagAt (lit : Chars) (s : Chars) : Option (Chars × Chars) :=
  match eatLit lit s with
  | none => none
  | some r =>
    let nm := r.takeWhile (· ≠ '>')
    if nm.isEmpty then none
    else
      match r.drop nm.length with
      | '>' :: r2 => some (nm, r2)
      | _ => none

/-- `re.search(r'<function=([^>]+)>', content)`: the raw capture of the
first match, scanning start positions left to right. -/
def findFunctionName : Chars → Option Chars
  | [] => none
  | c :: rest =>
    match matchTagAt "<function=".data (c :: rest) with
    | some (nm, _) => some nm
    | none => findFunctionName rest

/-- Try to match one `<parameter=KEY>VALUE</parameter>` occurrence at the
head of `s` (regex `<parameter=([^>]+)>\s*([^<]*?)\s*</parameter>` with
DOTALL).  The value group together with the later `.strip()` amounts to
stripping the whole region between `>` and `</parameter>`; the raw region is
returned here and stripped by the caller. -/
def matchParamAt (s : Chars) : Option ((Chars × Chars) × Chars) :=
  match matchTagAt "<parameter=".data s with
  | none => none
  | some (nm, r2) =>
    let reg := r2.takeWhile (· ≠ '<')
    match eatLit "</parameter>".data (r2.drop reg.length) with
    | some r4 => some ((nm, reg), r4)
    | none => none

/-- `re.findall` over the parameter pattern: fuelled left-to-right scan,
resuming after each match (or one character further on failure).  One unit
of fuel per step, so fuel `s.length` suffices. -/
def findParamsF : Nat → Chars → List (Chars × Chars)
  | 0, _ => []
  | Nat.succ n, s =>
    match s with
    | [] => []
    | _ :: rest =>
      match matchParamAt s with
      | some (kv, r4) => kv :: findParamsF n r4
      | none => findParamsF n rest

def findParams (s : Chars) : List (Chars × Chars) := findParamsF s.length s

/-- Embedding of `detect_and_convert_xml_tool_call`: `none` models the
Python `None` ("no call detected"); otherwise the stripped function name and
the argument dict built from the parameter tags. -/
def detect_and_convert_xml_tool_call (content : Chars) :
    Option (Chars × List (Chars × PyVal)) :=
  match findFunctionName content with
  | none => none
  | some fname =>
    let params := findParams content
    if params.isEmpty then none
    else
      some (pyStrip fname,
        params.foldl (fun d kv => dSet d (pyStrip kv.1) (pstr (pyStrip kv.2))) [])

/-! ## JSON Repair Engine -/

/-- Embedding of `try_fix_incomplete_json`.  `none` models `return None`;
empty or whitespace-only input yields `some []`, the falsy `""` the Python
returns there. -/
def try_fix_incomplete_json (s : Chars) : Option Chars :=
  if (pyStrip s).isEmpty then some []
  else
    let t := pyStrip s
    let result := t ++ List.replicate (countChar '[' t - countChar ']' t) ']'
      ++ List.replicate (countChar '{' t - countChar '}' t) '}'
    if validate_json_syntax result then some result else none

/-- Does the suffix starting here match the whole of
`,\s*"[^"]+"\s*(?!:)[^}]*\}$`?  Backtracking over the two `\s*` groups
reduces to: after the closing quote the next character must not be `:`, and
the remaining text must be non-empty, contain no `}` except its final
character, and end in `}`. -/
def dupKeySuffixMatch : Chars → Bool
  | ',' :: r =>
    match r.dropWhile pyWsChar with
    | '"' :: r2 =>
      let keyBody := r2.takeWhile (· ≠ '"')
      if keyBody.isEmpty then false
      else
        match r2.drop keyBody.length with
        | '"' :: r3 =>
          if r3.head? = some ':' then false
          else
            !r3.isEmpty && (r3.getLast? = some '}') && r3.dropLast.all (· ≠ '}')
        | _ => false
    | _ => false
  | _ => false

/-- Index of the leftmost match of the duplicate-key pattern (which is
end-anchored, so a match runs to the end of the string). -/
def findDupKeyIdx : Chars → Option Nat
  | [] => none
  | c :: rest =>
    if dupKeySuffixMatch (c :: rest) then some 0
    else (findDupKeyIdx rest).map (· + 1)

/-- Embedding of `_strip_malformed_trailing_duplicate_key`:
`re.sub(r',\s*"[^"]+"\s*(?!:)[^}]*\}$', '}', s)`. -/
def strip_malformed_trailing_duplicate_key (s : Chars) : Chars :=
  match findDupKeyIdx s with
  | some i => s.take i ++ ['}']
  | none => s

/-- The `recovery_attempts` list of `try_json_recovery`, in source order. -/
def recoveryTransforms : List (Chars → Chars) :=
  [strip_malformed_trailing_duplicate_key,
   fun s => rstripComma s ++ ['}'],
   fun s => s ++ ['}'],
   fun s => if s.head? = some '{' then s else '{' :: s ++ ['}']]

/-- The `for fix_func in recovery_attempts` loop: parse the repaired
candidate, apply the fix rules, serialise; any failure moves to the next
candidate. -/
def recoveryLoop (cfg : Config) (tool_name : Chars) (stripped : Chars) :
    List (Chars → Chars) → Option (Chars × Chars)
  | [] => none
  | f :: rest =>
    match pyLoads (f stripped) with
    | some v =>
      match apply_fixes cfg tool_name v with
      | some r => some (r.1, pyDumps r.2)
      | none => recoveryLoop cfg tool_name stripped rest
    | none => recoveryLoop cfg tool_name stripped rest

/-- Embedding of `try_json_recovery`: `some (finalName, fixedArgsText)` on
success (the tool dict's name and arguments fields are assigned those
values); `none` when every recovery attempt failed (the caller's tool dict
is left untouched). -/
def try_json_recovery (cfg : Config) (tool_name : Chars) (malformed : Chars) :
    Option (Chars × Chars) :=
  recoveryLoop cfg tool_name (pyStrip malformed) recoveryTransforms

/-! ## Buffers and complete-buffer processing -/

/-- Embedding of `ToolBuffer` (timestamps are omitted: none of the verified
paths reads them). -/
structure PBuf where
  call_id : Chars
  content : Chars
  tool_name : Chars
deriving Repr

/-- Embedding of `process_complete_buffer`, acting on the
`tool["function"]` fields `(name, arguments)` and returning their new
values.  A `json.loads` success followed by an `apply_fixes` exception, or a
total recovery failure, leaves the fields unchanged. -/
def process_complete_buffer (cfg : Config) (buf : PBuf)
    (tname targs : Chars) : Chars × Chars :=
  match pyLoads buf.content with
  | some v =>
    match apply_fixes cfg buf.tool_name v with
    | some (fn, v') => ((if fn ≠ buf.tool_name then fn else tname), pyDumps v')
    | none => (tname, targs)
  | none =>
    match try_json_recovery cfg buf.tool_name buf.content with
    | some (fn, fa) => (fn, fa)
    | none => (tname, targs)

/-- Embedding of `get_fixed_arguments`: `(tool_name, "")` on any failure. -/
def get_fixed_arguments (cfg : Config) (buf : PBuf) : Chars × Chars :=
  match pyLoads buf.content with
  | some v =>
    match apply_fixes cfg buf.tool_name v with
    | some (fn, v') => (fn, pyDumps v')
    | none => (buf.tool_name, [])
  | none => (buf.tool_name, [])

/-! ## Stream Event Processor: `process_sse_event`

The SSE event dict is embedded structurally; absent keys are `none`.  In the
source, `delta = choice.get("delta", {})` produces a temporary dict when the
key is absent, so mutations of it are invisible in the returned event; the
embedding reproduces this by re-attaching the processed delta only when the
choice had one. -/

/-- Generic assoc-list lookup for string-keyed Python dicts. -/
def aGet {α : Type} (d : List (Chars × α)) (k : Chars) : Option α :=
  match d with
  | [] => none
  | (k', v) :: rest => if k' = k then some v else aGet rest k

/-- Generic assoc-list assignment (replace in place or append). -/
def aSet {α : Type} (d : List (Chars × α)) (k : Chars) (v : α) : List (Chars × α) :=
  match d with
  | [] => [(k, v)]
  | (k', v') :: rest => if k' = k then (k, v) :: rest else (k', v') :: aSet rest k v

/-- Generic assoc-list deletion. -/
def aDel {α : Type} (d : List (Chars × α)) (k : Chars) : List (Chars × α) :=
  match d with
  | [] => []
  | (k', v') :: rest => if k' = k then rest else (k', v') :: aDel rest k

/-- `tool["function"]`: the name (defaulted to `""`) and the optional
arguments entry (whose *presence* drives fragment classification). -/
structure FuncDelta where
  fname : Option Chars := none
  farguments : Option Chars := none
deriving Repr

/-- One entry of `delta["tool_calls"]`. -/
structure ToolCallDelta where
  tindex : Option Int := none
  tid : Option Chars := none
  func : FuncDelta := {}
deriving Repr

/-- `choice["delta"]`. -/
structure Delta where
  dcontent : Option Chars := none
  dtool_calls : Option (List ToolCallDelta) := none
deriving Repr

/-- One element of `event["choices"]`. -/
structure Choice where
  cdelta : Option Delta := none
  cfinish : Option Chars := none
deriving Repr

/-- The SSE event. -/
structure Event where
  echoices : Option (List Choice) := none
deriving Repr

/-- Embedding of `RequestState` (timer fields omitted; they are never read
by the verified paths). -/
structure PState where
  tool_buffers : List (Chars × PBuf) := []
  content_buffer : Chars := []
  sent_tool_signatures : List Chars := []
deriving Repr

/-- The shared sentinel buffer key `"main_tool_call"`. -/
def mainKey : Chars := "main_tool_call".data

/-- Classification of one tool-call delta entry by the source's
`if call_id and tool_name and func.get("arguments", "").strip()` chain. -/
inductive TCClass : Type where
  | namedFull : TCClass
  | header : TCClass
  | frag : TCClass
  | other : TCClass
deriving DecidableEq, Repr

/-- Truthiness of `tool.get("id")`. -/
def idTruthy (t : ToolCallDelta) : Bool :=
  match t.tid with
  | some s => ¬s.isEmpty
  | none => false

def classify (t : ToolCallDelta) : TCClass :=
  if idTruthy t ∧ ¬(t.func.fname.getD []).isEmpty ∧
      ¬(pyStrip (t.func.farguments.getD [])).isEmpty then TCClass.namedFull
  else if idTruthy t ∧ ¬(t.func.fname.getD []).isEmpty then TCClass.header
  else if t.func.farguments.isSome then TCClass.frag
  else TCClass.other

/-- Stable insertion of a keyed fragment (before the first strictly larger
key), giving Python's stable ascending `list.sort(key=...)`. -/
def insByKey (x : Int × Chars) : List (Int × Chars) → List (Int × Chars)
  | [] => [x]
  | y :: ys => if y.1 < x.1 then y :: insByKey x ys else x :: y :: ys

/-- Stable ascending sort by the declared fragment index. -/
def sortByKey : List (Int × Chars) → List (Int × Chars)
  | [] => []
  | x :: xs => insByKey x (sortByKey xs)

/-- An element of the current `delta["tool_calls"]` list: a reference to an
original entry (mutable through the event processing) or a synthesized
call. -/
inductive DItem : Type where
  | orig : Nat → DItem
  | synth : ToolCallDelta → DItem

/-- The content-accumulation / XML-conversion phase at the top of
`process_sse_event`. -/
def contentPhase (cfg : Config) (us : Nat → Chars) (k : Nat) (st : PState)
    (delta : Delta) : Nat × PState × Delta :=
  let content := delta.dcontent.getD []
  if content.isEmpty then (k, st, delta)
  else
    let cb := st.content_buffer ++ content
    match detect_and_convert_xml_tool_call cb with
    | some (fname, argsmap) =>
      let idStr := "call_".data ++ (us k).take 24
      let newCall : ToolCallDelta :=
        { tindex := some 0, tid := some idStr,
          func := { fname := some fname, farguments := some (pyDumps (pdict argsmap)) } }
      (k + 1, { st with content_buffer := [] },
       { delta with dcontent := some [], dtool_calls := some [newCall] })
    | none =>
      if cb.length > cfg.max_buffer_size then
        (k, { st with content_buffer := [] }, delta)
      else
        (k, { st with content_buffer := cb }, delta)

/-- Embedding of `process_all_buffers` (run on `finish_reason ==
"tool_calls"`): fix or recover each buffer's content in place, dropping
empty and unfixable buffers. -/
def process_all_buffers (cfg : Config) (bufs : List (Chars × PBuf)) :
    List (Chars × PBuf) :=
  let step := fun (acc : List (Chars × PBuf) × List Chars) (p : Chars × PBuf) =>
    if p.2.content.isEmpty then (acc.1, acc.2 ++ [p.1])
    else
      let r := process_complete_buffer cfg p.2 p.2.tool_name p.2.content
      if ¬r.2.isEmpty ∧ validate_json_syntax r.2 then
        (aSet acc.1 p.1 { p.2 with content := r.2, tool_name := r.1 }, acc.2)
      else (acc.1, acc.2 ++ [p.1])
  let res := bufs.foldl step (bufs, [])
  res.2.foldl (fun bs cid => aDel bs cid) res.1

/-- The fragment-accumulation phase of `process_sse_event`: append the
event's anonymous fragments (sorted by index) to the shared buffer, enforce
the size cap, infer the tool name, and on completeness replace the delta's
tool-call list with one synthesized call (or suppress everything). -/
def fragmentPhase (cfg : Config) (us : Nat → Chars) (k : Nat)
    (bufs : List (Chars × PBuf)) (frags : List (Int × Chars))
    (dlist : List DItem) : Nat × List (Chars × PBuf) × List DItem :=
  if frags.isEmpty then (k, bufs, dlist)
  else
    let bufs1 := if (aGet bufs mainKey).isSome then bufs
      else aSet bufs mainKey ⟨mainKey, [], []⟩
    let buf := (aGet bufs1 mainKey).getD ⟨mainKey, [], []⟩
    let sorted := sortByKey frags
    let content' := buf.content ++ (sorted.map (·.2)).foldl (· ++ ·) []
    let buf2 : PBuf := { buf with content := content' }
    let bufs2 := aSet bufs1 mainKey buf2
    if utf8Len content' > cfg.max_buffer_size then
      (k, aDel bufs2 mainKey, [])
    else
      let name' := if buf2.tool_name.isEmpty ∧ ¬content'.isEmpty then
          infer_tool_name_from_content content'
        else buf2.tool_name
      let buf3 : PBuf := { buf2 with tool_name := name' }
      let bufs3 := aSet bufs2 mainKey buf3
      if ¬content'.isEmpty ∧ is_json_complete content' then
        let gf := get_fixed_arguments cfg buf3
        if ¬gf.2.isEmpty ∧ ¬gf.1.isEmpty then
          let idStr := "call_".data ++ (us k).take 24
          let newCall : ToolCallDelta :=
            { tindex := some 0, tid := some idStr,
              func := { fname := some gf.1, farguments := some gf.2 } }
          (k + 1, aDel bufs3 mainKey, [DItem.synth newCall])
        else (k, bufs3, [])
      else (k, bufs3, [])

/-- The state threaded through the named-tool-call loop. -/
structure NLSt where
  k : Nat
  bufs : List (Chars × PBuf)
  origs : List ToolCallDelta
  flags : List Bool
  dlist : List DItem

/-- One iteration of the `for tool in named_tool_calls` loop. -/
def namedStep (cfg : Config) (us : Nat → Chars) (s : NLSt) (i : Nat) : NLSt :=
  match s.origs.get? i with
  | none => s
  | some t =>
    let call_id := t.tid.getD []
    let tool_name := t.func.fname.getD []
    let bufs1 := if (aGet s.bufs call_id).isSome then s.bufs
      else aSet s.bufs call_id ⟨call_id, [], tool_name⟩
    let buf := (aGet bufs1 call_id).getD ⟨call_id, [], tool_name⟩
    match t.func.farguments with
    | none => { s with bufs := bufs1 }
    | some frag =>
      let buf2 : PBuf := { buf with content := buf.content ++ frag }
      let bufs2 := aSet bufs1 call_id buf2
      if ¬buf2.content.isEmpty ∧ is_json_complete buf2.content then
        let r := process_complete_buffer cfg buf2 (t.func.fname.getD []) frag
        let t' : ToolCallDelta :=
          { t with func := { fname := some r.1, farguments := some r.2 } }
        { s with bufs := aDel bufs2 call_id, origs := s.origs.set i t' }
      else if ¬buf2.content.isEmpty then
        let bufs3 := if (aGet bufs2 mainKey).isSome then bufs2
          else aSet bufs2 mainKey ⟨mainKey, [], []⟩
        let mainBuf := (aGet bufs3 mainKey).getD ⟨mainKey, [], []⟩
        let newContent :=
          if ¬mainBuf.content.isEmpty ∧
              ((pyLStrip mainBuf.content).head? = some '{' ∨
               (pyLStrip mainBuf.content).head? = some '[') then
            mainBuf.content ++ buf2.content
          else buf2.content ++ mainBuf.content
        let newName := if mainBuf.tool_name.isEmpty then
            (if ¬buf2.tool_name.isEmpty then buf2.tool_name else tool_name)
          else mainBuf.tool_name
        let mainBuf2 : PBuf := { mainBuf with content := newContent, tool_name := newName }
        let bufs4 := aDel (aSet bufs3 mainKey mainBuf2) call_id
        let flags' := s.flags.set i true
        if is_json_complete mainBuf2.content then
          let gf := get_fixed_arguments cfg mainBuf2
          if ¬gf.2.isEmpty ∧ ¬gf.1.isEmpty then
            let idStr := "call_".data ++ (us s.k).take 24
            let newCall : ToolCallDelta :=
              { tindex := some 0, tid := some idStr,
                func := { fname := some gf.1, farguments := some gf.2 } }
            { k := s.k + 1, bufs := aDel bufs4 mainKey, origs := s.origs,
              flags := flags', dlist := s.dlist ++ [DItem.synth newCall] }
          else { s with bufs := bufs4, flags := flags' }
        else { s with bufs := bufs4, flags := flags' }
      else { s with bufs := bufs2 }

/-- Rebuild the event around the processed first choice.  When the choice
had no `delta` key the source mutated a temporary dict, so the processed
delta is discarded. -/
def rebuildEvent (c0 : Choice) (rest : List Choice) (d : Delta) : Event :=
  { echoices := some
      ((if c0.cdelta.isSome then { c0 with cdelta := some d } else c0) :: rest) }

/-- Materialise the final `delta["tool_calls"]` list and drop `_suppress`-
marked entries; an emptied list removes the key. -/
def materialize (origs : List ToolCallDelta) (flags : List Bool)
    (dlist : List DItem) : Option (List ToolCallDelta) :=
  let l := dlist.filterMap (fun it =>
    match it with
    | DItem.orig i =>
      match origs.get? i with
      | some t => if (flags.get? i).getD false then none else some t
      | none => none
    | DItem.synth t => some t)
  if l.isEmpty then none else some l

/-- Embedding of `process_sse_event`.  `us` is the oracle for
`uuid.uuid4().hex` draws and `k` the number of draws already made; the
result is the new draw count, the new request state and the rewritten
event. -/
def process_sse_event (cfg : Config) (us : Nat → Chars) (k : Nat)
    (st : PState) (ev : Event) : Nat × PState × Event :=
  match ev.echoices with
  | none => (k, st, ev)
  | some [] => (k, st, ev)
  | some (c0 :: rest) =>
    let delta0 : Delta := c0.cdelta.getD {}
    let fr := c0.cfinish
    let phA := contentPhase cfg us k st delta0
    let k1 := phA.1
    let st1 := phA.2.1
    let delta1 := phA.2.2
    match delta1.dtool_calls with
    | none =>
      let st2 := if fr = some "tool_calls".data then
          { st1 with tool_buffers := process_all_buffers cfg st1.tool_buffers }
        else st1
      (k1, st2, rebuildEvent c0 rest delta1)
    | some tcs =>
      let en := tcs.enum
      let flags0 := tcs.map (fun t => decide (classify t = TCClass.header))
      let frags := (en.filter (fun p => classify p.2 = TCClass.frag)).map
        (fun p => (p.2.tindex.getD 0, p.2.func.farguments.getD []))
      let namedIdxs := (en.filter (fun p => classify p.2 = TCClass.namedFull)).map (·.1)
      let phB := fragmentPhase cfg us k1 st1.tool_buffers frags
        (en.map (fun p => DItem.orig p.1))
      let s0 : NLSt :=
        { k := phB.1, bufs := phB.2.1, origs := tcs,
          flags := flags0, dlist := phB.2.2 }
      let s1 := namedIdxs.foldl (fun s i => namedStep cfg us s i) s0
      let bufs2 := if fr = some "tool_calls".data then
          process_all_buffers cfg s1.bufs
        else s1.bufs
      let delta2 := { delta1 with dtool_calls := materialize s1.origs s1.flags s1.dlist }
      (s1.k, { st1 with tool_buffers := bufs2 }, rebuildEvent c0 rest delta2)

/-! ## Definitions for the remaining claims -/

/-- The recovery transform list exactly as claim C4 words it: its fourth
candidate only *prepends* an opening brace (the code's fourth candidate
wraps with both an opening and a closing brace). -/
def claimedRecoveryTransforms : List (Chars → Chars) :=
  [strip_malformed_trailing_duplicate_key,
   fun s => rstripComma s ++ ['}'],
   fun s => s ++ ['}'],
   fun s => if s.head? = some '{' then s else '{' :: s]

/-- Success test for one recovery candidate: the body of the loop reaches
`return True` exactly when the candidate parses as JSON and the subsequent
fix application raises no exception. -/
def recoveryOk (cfg : Config) (name : Chars) (c : Chars) : Bool :=
  match pyLoads c with
  | some v => (apply_fixes cfg name v).isSome
  | none => false

/-- The name and serialised argument text a successful candidate yields. -/
def recoveryOutcome (cfg : Config) (name : Chars) (c : Chars) :
    Option (Chars × Chars) :=
  match pyLoads c with
  | some v => (apply_fixes cfg name v).map (fun r => (r.1, pyDumps r.2))
  | none => none

/-- The duplicate-detection signature
`f"{fn.get('name')}|{fn.get('arguments', '')}"` computed in
`handle_request` (a missing name formats as the string `None`). -/
def sigOf (t : ToolCallDelta) : Chars :=
  (match t.func.fname with
   | some n => n
   | none => "None".data) ++ '|' :: t.func.farguments.getD []

/-- The duplicate-detection loop of `handle_request` over one event's
outgoing tool calls: each call is paired with its duplicate flag (the log
branch taken), and a first-occurrence signature is appended to the sent
list.  Every call is passed through (sending is never suppressed). -/
def dupScan (sigs : List Chars) : List ToolCallDelta →
    List Chars × List (ToolCallDelta × Bool)
  | [] => (sigs, [])
  | tc :: rest =>
    let sig := sigOf tc
    if sig ∈ sigs then
      let r := dupScan sigs rest
      (r.1, (tc, true) :: r.2)
    else
      let r := dupScan (sigs ++ [sig]) rest
      (r.1, (tc, false) :: r.2)

/-- The shared sentinel buffer's text after one all-fragment event: the
buffer's prior content followed by the event's fragments in ascending order
of their declared index (stable for equal indices). -/
def mergedFragments (st : PState) (tcs : List ToolCallDelta) : Chars :=
  ((aGet st.tool_buffers mainKey).getD ⟨mainKey, [], []⟩).content ++
    ((sortByKey (tcs.map (fun tc =>
      (tc.tindex.getD 0, tc.func.farguments.getD [])))).map (·.2)).foldl (· ++ ·) []

/-- The shared buffer's tool name after the event: inferred from the merged
content when not already known. -/
def mergedName (st : PState) (tcs : List ToolCallDelta) : Chars :=
  if ((aGet st.tool_buffers mainKey).getD ⟨mainKey, [], []⟩).tool_name.isEmpty ∧
      ¬(mergedFragments st tcs).isEmpty then
    infer_tool_name_from_content (mergedFragments st tcs)
  else ((aGet st.tool_buffers mainKey).getD ⟨mainKey, [], []⟩).tool_name

/-- The tool name and fixed-up argument text the processor would emit for
the merged buffer. -/
def fragOutcome (cfg : Config) (st : PState) (tcs : List ToolCallDelta) :
    Chars × Chars :=
  get_fixed_arguments cfg ⟨mainKey, mergedFragments st tcs, mergedName st tcs⟩

/-- Oracle used by the concrete witnesses: a fixed 32-character lowercase
hex draw. -/
def usW : Nat → Chars := fun _ => "0123456789abcdef0123456789abcdef".data

/-- Witness fragment 1: the opening of a glob call's arguments. -/
def tcW1 : ToolCallDelta :=
  ⟨some 0, none, ⟨none, some ['{', '"', 'p', 'a', 't', 't', 'e', 'r', 'n', '"', ':', ' ', '"', '*', '.', 'p', 'y', '"']⟩⟩

/-- Witness fragment 2: the closing brace. -/
def tcW2 : ToolCallDelta := ⟨some 1, none, ⟨none, some ['}']⟩⟩

/-- Witness delta, choice, event and state for claim C1. -/
def dW : Delta := ⟨none, some [tcW1, tcW2]⟩

def c0W : Choice := ⟨some dW, none⟩

def evW : Event := ⟨some [c0W]⟩

def stW : PState := ⟨[], [], []⟩

/-- The accumulated argument text of a named call: the id-keyed buffer's
prior content (a fresh buffer when absent) followed by this event's
fragment. -/
def accContent (st : PState) (cid nm frag : Chars) : Chars :=
  ((aGet st.tool_buffers cid).getD ⟨cid, [], nm⟩).content ++ frag

/-- The id-keyed buffer's stored tool name (the delta's name when fresh). -/
def accName (st : PState) (cid nm : Chars) : Chars :=
  ((aGet st.tool_buffers cid).getD ⟨cid, [], nm⟩).tool_name

/-- The shared sentinel buffer before the merge. -/
def mainOld (st : PState) : PBuf :=
  (aGet st.tool_buffers mainKey).getD ⟨mainKey, [], []⟩

/-- The shared buffer's text after merging a named continuation, per the
direction rule: the shared buffer is the prefix when its (left-stripped)
text starts with an opener, else the continuation is the prefix. -/
def mergedNamedContent (st : PState) (cid nm frag : Chars) : Chars :=
  if ¬(mainOld st).content.isEmpty ∧
      ((pyLStrip (mainOld st).content).head? = some '{' ∨
       (pyLStrip (mainOld st).content).head? = some '[') then
    (mainOld st).content ++ accContent st cid nm frag
  else accContent st cid nm frag ++ (mainOld st).content

/-- The shared buffer's tool name after the merge. -/
def mergedNamedName (st : PState) (cid nm : Chars) : Chars :=
  if (mainOld st).tool_name.isEmpty then
    (if ¬(accName st cid nm).isEmpty then accName st cid nm else nm)
  else (mainOld st).tool_name

/-- Name and fixed-up argument text for the merged shared buffer. -/
def namedOutcome (cfg : Config) (st : PState) (cid nm frag : Chars) :
    Chars × Chars :=
  get_fixed_arguments cfg
    ⟨(mainOld st).call_id, mergedNamedContent st cid nm frag, mergedNamedName st cid nm⟩

/-- C3 counterexample, first event: a single anonymous fragment carrying
the tail half of an argument object (a closing quote-value-brace). -/
def evC3a : Event :=
  ⟨some [⟨some ⟨none, some [⟨some 0, none, ⟨none, some ['"', 'x', '"', '}']⟩⟩]⟩, none⟩]⟩

/-- C3 counterexample, head half of the named call's argument text:
an opening brace and a bare key (no colon), incomplete on its own. -/
def argsC3 : Chars := ['{', '"', 'p', 'a', 't', 't', 'e', 'r', 'n', '"', ' ']

/-- C3 counterexample, second event: a named glob call with identifier
and the head-half argument text. -/
def evC3b : Event :=
  ⟨some [⟨some ⟨none, some [⟨some 0, some "a".data,
    ⟨some "glob".data, some argsC3⟩⟩]⟩, none⟩]⟩

/-- The request state after the first C3 event: the shared sentinel buffer
holds the tail half. -/
def stC3 : PState := ⟨[(mainKey, ⟨mainKey, ['"', 'x', '"', '}'], []⟩)], [], []⟩

/-- C3 witness: the tail half of a well-formed glob argument object,
sitting in the shared buffer. -/
def tailC3 : Chars :=
  ['"', 'p', 'a', 't', 't', 'e', 'r', 'n', '"', ':', ' ',
   '"', '*', '*', '/', '*', '.', 'p', 'y', '"', '}']

/-- C3 witness state: the shared buffer holds the tail half. -/
def stC3e : PState := ⟨[(mainKey, ⟨mainKey, tailC3, []⟩)], [], []⟩

/-- C3 witness tool-call delta: a named glob call whose argument text is
the single opening brace of the claim's split-brace example. -/
def tcC3w : ToolCallDelta := ⟨some 0, some "a".data, ⟨some "glob".data, some ['{']⟩⟩

/-- C3 witness delta and event. -/
def dC3w : Delta := ⟨none, some [tcC3w]⟩

def evC3w : Event := ⟨some [⟨some dC3w, none⟩]⟩

/-! ## Claim C2: the Completeness Analyzer -/

/-- The code's scan loop agrees pointwise with the amended specification
scan (backslash sets pending-escape anywhere). -/
theorem jcScan_eq_amended (cs : Chars) : ∀ (stack : List Char) (inStr pend : Bool),
    jcScan cs stack inStr pend =
      (match runScan amendedStep cs ⟨stack, inStr, pend⟩ with
       | some st => st.stack.isEmpty && !st.inStr
       | none => false) := by
  induction cs with
  | nil =>
    intro stack inStr pend
    cases stack <;> simp [jcScan, runScan, Bool.and_comm]
  | cons c rest ih =>
    intro stack inStr pend
    by_cases hp : pend = true
    · subst hp
      simp only [jcScan, runScan, amendedStep, if_pos trivial]
      simpa using ih stack inStr false
    · replace hp : pend = false := by simpa using hp
      subst hp
      by_cases hbs : c = '\\'
      · subst hbs
        simp only [jcScan, runScan, amendedStep]
        norm_num
        simpa using ih stack inStr true
      · by_cases hq : c = '"'
        · subst hq
          simp only [jcScan, runScan, amendedStep]
          norm_num
          simpa using ih stack (!inStr) false
        · by_cases hstr : inStr = true
          · subst hstr
            simp only [jcScan, runScan, amendedStep]
            simp only [hbs, hq, if_false, if_neg, ite_false]
            norm_num [hbs, hq]
            simpa using ih stack true false
          · replace hstr : inStr = false := by simpa using hstr
            subst hstr
            by_cases hop : c = '{' ∨ c = '['
            · simp only [jcScan, runScan, amendedStep]
              norm_num [hbs, hq, hop]
              simpa using ih (c :: stack) false false
            · by_cases hcl : c = '}' ∨ c = ']'
              · rcases hcl with hcl | hcl
                · subst hcl
                  have hne1 : ¬('}' = '{' ∨ '}' = '[') := by decide
                  cases stack with
                  | nil =>
                    simp only [jcScan, runScan, amendedStep]
                    norm_num [hbs, hq, hne1]
                  | cons last stack' =>
                    by_cases hl : last = '{'
                    · subst hl
                      simp only [jcScan, runScan, amendedStep]
                      norm_num [hbs, hq, hne1]
                      simpa using ih stack' false false
                    · simp only [jcScan, runScan, amendedStep]
                      norm_num [hbs, hq, hne1, hl]
                · subst hcl
                  have hne1 : ¬(']' = '{' ∨ ']' = '[') := by decide
                  have hne2 : ¬(']' = '}') := by decide
                  cases stack with
                  | nil =>
                    simp only [jcScan, runScan, amendedStep]
                    norm_num [hbs, hq, hne1, hne2]
                  | cons last stack' =>
                    by_cases hl : last = '['
                    · subst hl
                      simp only [jcScan, runScan, amendedStep]
                      norm_num [hbs, hq, hne1, hne2]
                      simpa using ih stack' false false
                    · simp only [jcScan, runScan, amendedStep]
                      norm_num [hbs, hq, hne1, hne2, hl]
              · simp only [jcScan, runScan, amendedStep]
                norm_num [hbs, hq, hop, hcl]
                have hcl1 : ¬(c = '}') := fun h => hcl (Or.inl h)
                have hcl2 : ¬(c = ']') := fun h => hcl (Or.inr h)
                norm_num [hcl1, hcl2]
                simpa using ih stack false false

/-- C2 counterexample: on the text `{\}` the code's `is_json_complete`
returns `false` (its escape flag is set by a backslash outside any string,
swallowing the closing brace), while the scan exactly as the claim words it
(escape only set inside a string) accepts the text.  The claimed iff is
therefore false at this input. -/
theorem c2_counterexample :
    is_json_complete ['{', '\\', '}'] = false ∧
      claimComplete ['{', '\\', '}'] = true := by
  constructor <;> rfl

/-- C2 (amended): `is_json_complete` returns true iff the stripped text
begins with `{` or `[` and the claimed scan — amended so that a backslash
sets the pending-escape flag anywhere, not only inside a string — ends with
an empty stack and the in-string flag false; empty or whitespace-only text
is always false. -/
theorem c2_amended (s : Chars) : is_json_complete s = amendedComplete s := by
  unfold is_json_complete amendedComplete
  by_cases h : (pyStrip s).isEmpty
  · have hh : (pyStrip s).head? = none := by
      cases hs : pyStrip s
      · rfl
      · rw [hs] at h; simp at h
    simp [h, hh]
  · have hne : ¬((pyStrip s).head? = some '{' ∨ (pyStrip s).head? = some '[') ∨
        ((pyStrip s).head? = some '{' ∨ (pyStrip s).head? = some '[') := by tauto
    rcases hne with hne | hne
    · simp [h, hne]
    · simp only [h, hne, if_false, if_true, ite_true, ite_false, Bool.false_eq_true,
        not_true, not_false_iff, if_neg, if_pos]
      rw [jcScan_eq_amended]

/-! ## Claim C5: bracket-closing repair on already-valid JSON -/

/-- C5 counterexample: `{"a": "["}` is complete, valid JSON, yet
`try_fix_incomplete_json` *fails* on it: the non-escape-aware count sees the
`[` inside the string literal, appends a spurious `]`, and the result no
longer parses, so the function returns `None` rather than the unchanged
text. -/
theorem c5_counterexample :
    validate_json_syntax ['{', '"', 'a', '"', ':', ' ', '"', '[', '"', '}'] = true ∧
      try_fix_incomplete_json ['{', '"', 'a', '"', ':', ' ', '"', '[', '"', '}'] = none := by
  constructor <;> rfl

/-- C5 (amended): for every text that parses as valid JSON *and* whose
brace/bracket occurrence counts satisfy `opens ≤ closes` (in particular, no
unmatched opener hides inside a string literal), bracket-closing repair
returns the stripped text unchanged and reports success. -/
theorem c5_amended (s : Chars)
    (hvalid : validate_json_syntax (pyStrip s) = true)
    (hb : countChar '{' (pyStrip s) ≤ countChar '}' (pyStrip s))
    (hk : countChar '[' (pyStrip s) ≤ countChar ']' (pyStrip s)) :
    try_fix_incomplete_json s = some (pyStrip s) := by
  have hne : (pyStrip s).isEmpty = false := by
    cases hs : pyStrip s with
    | nil => rw [hs] at hvalid; exact absurd hvalid (by decide)
    | cons a l => rfl
  have h1 : countChar '[' (pyStrip s) - countChar ']' (pyStrip s) = 0 :=
    Nat.sub_eq_zero_of_le hk
  have h2 : countChar '{' (pyStrip s) - countChar '}' (pyStrip s) = 0 :=
    Nat.sub_eq_zero_of_le hb
  unfold try_fix_incomplete_json
  simp [hne, h1, h2, hvalid]

/-- C5 witness: concrete application of the amended theorem. -/
theorem c5_witness :
    try_fix_incomplete_json ['{', '"', 'x', '"', ':', ' ', '[', '1', ']', '}'] =
      some (pyStrip ['{', '"', 'x', '"', ':', ' ', '[', '1', ']', '}']) :=
  c5_amended _ (by decide) (by decide) (by decide)

/-! ## Claim C4: heuristic JSON recovery order -/

/-- C4 counterexample: two divergences from the claim.  (a) On the input
`"a": 1` the code's recovery succeeds — its fourth transform wraps the text
in *both* braces, producing a parseable object — while none of the four
transforms as the claim words them (the fourth only prepending an opening
brace) yields parseable JSON, so recovery as claimed would fail.  (b) The
first candidate that parses does not always win: for the fix-configured
todowrite tool on `[]` the first candidate parses as JSON, yet the fix
application fails on the non-object value, the loop moves on to the later
candidates (none of which parses) and recovery reports failure. -/
theorem c4_counterexample :
    try_json_recovery defaultConfig "glob".data ['"', 'a', '"', ':', ' ', '1'] =
      some ("glob".data, ['{', '"', 'a', '"', ':', ' ', '1', '}']) ∧
    claimedRecoveryTransforms.map
        (fun f => validate_json_syntax (f (pyStrip ['"', 'a', '"', ':', ' ', '1']))) =
      [false, false, false, false] ∧
    validate_json_syntax
      (strip_malformed_trailing_duplicate_key (pyStrip ['[', ']'])) = true ∧
    try_json_recovery defaultConfig "todowrite".data ['[', ']'] = none := by
  refine ⟨rfl, rfl, rfl, rfl⟩

/-- The recovery loop for a tool with no configured fixes picks exactly the
first candidate that parses as JSON. -/
theorem recoveryLoop_no_fixes (cfg : Config) (name stripped : Chars)
    (fs : List (Chars → Chars))
    (h : lookupFixes cfg (if cfg.case_sensitive_tools then name else pyLower name) = []) :
    recoveryLoop cfg name stripped fs =
      ((fs.map (fun f => f stripped)).find? validate_json_syntax).map
        (fun c => ((if cfg.case_sensitive_tools then name else pyLower name),
          pyDumps ((pyLoads c).getD pnone))) := by
  induction fs with
  | nil => rfl
  | cons f rest ih =>
    simp only [recoveryLoop, List.map_cons]
    cases hp : pyLoads (f stripped) with
    | none =>
      have hv : validate_json_syntax (f stripped) = false := by
        simp [ validate_json_syntax, hp]
      rw [List.find?_cons_of_neg _ (by simp [hv]), ih]
    | some v =>
      have hv : validate_json_syntax (f stripped) = true := by
        simp [ validate_json_syntax, hp]
      have happ : apply_fixes cfg name v =
          some ((if cfg.case_sensitive_tools then name else pyLower name), v) := by
        simp [apply_fixes, h]
      simp only [happ]
      rw [List.find?_cons_of_pos _ (by simp [hv])]
      simp [hp]

/-- The recovery loop picks exactly the first candidate that parses as JSON
and whose fix application succeeds; its result is that candidate's final
tool name and re-serialised fixed arguments. -/
theorem recoveryLoop_find (cfg : Config) (name stripped : Chars) :
    ∀ fs : List (Chars → Chars),
    recoveryLoop cfg name stripped fs =
      ((fs.map (fun f => f stripped)).find? (recoveryOk cfg name)).bind
        (recoveryOutcome cfg name) := by
  intro fs
  induction fs with
  | nil => rfl
  | cons f rest ih =>
    simp only [recoveryLoop, List.map_cons]
    cases hp : pyLoads (f stripped) with
    | none =>
      have hv : recoveryOk cfg name (f stripped) = false := by
        simp [recoveryOk, hp]
      rw [List.find?_cons_of_neg _ (by simp [hv]), ih]
    | some v =>
      cases ha : apply_fixes cfg name v with
      | none =>
        have hv : recoveryOk cfg name (f stripped) = false := by
          simp [recoveryOk, hp, ha]
        rw [List.find?_cons_of_neg _ (by simp [hv]), ih]
        simp [ha]
      | some r =>
        have hv : recoveryOk cfg name (f stripped) = true := by
          simp [recoveryOk, hp, ha]
        rw [List.find?_cons_of_pos _ (by simp [hv])]
        simp [recoveryOutcome, hp, ha]

/-- C4 (amended): the four candidate transforms are applied in the source's
fixed order — (1) strip a malformed trailing duplicate-key fragment, (2)
strip trailing commas and append a closing brace, (3) unconditionally append
a closing brace, (4) *wrap the text in an opening and a closing brace* when
it does not already start with an opening brace.  A candidate wins only if
it parses as JSON *and* the configured fix application succeeds on the
parsed value (a failure there skips the candidate); the first such candidate
wins and later ones are not tried, the winner supplying the final tool name
and the re-serialised fixed argument text.  When no candidate succeeds,
recovery reports failure and `process_complete_buffer` preserves the
original tool fields. -/
theorem c4_amended (cfg : Config) (name s : Chars) :
    (try_json_recovery cfg name s =
      ((recoveryTransforms.map (fun f => f (pyStrip s))).find?
          (recoveryOk cfg name)).bind (recoveryOutcome cfg name)) ∧
    (∀ (buf : PBuf) (tn ta : Chars), pyLoads buf.content = none →
      try_json_recovery cfg buf.tool_name buf.content = none →
      process_complete_buffer cfg buf tn ta = (tn, ta)) := by
  constructor
  · exact recoveryLoop_find cfg name (pyStrip s) recoveryTransforms
  · intro buf tn ta h1 h2
    unfold process_complete_buffer
    rw [h1, h2]

/-- C4 witness: concrete applications of the amended theorem.  For the
fix-configured todowrite tool on `[]` the characterisation evaluates to
failure (the only parsing candidate is skipped because the fix application
fails on the non-object value), and a glob buffer whose content neither
parses nor recovers keeps its original tool fields. -/
theorem c4_witness :
    try_json_recovery defaultConfig "todowrite".data ['[', ']'] = none ∧
    process_complete_buffer defaultConfig
      ⟨[], ['"', 'a', '"', ':', ' ', '1', '}'], "glob".data⟩ "glob".data ['{'] =
      ("glob".data, ['{']) := by
  constructor
  · rw [(c4_amended defaultConfig "todowrite".data ['[', ']']).1]
    rfl
  · exact (c4_amended defaultConfig "glob".data []).2
      ⟨[], ['"', 'a', '"', ':', ' ', '1', '}'], "glob".data⟩ "glob".data ['{'] rfl rfl

/-! ## Claim C6: the read→write conversion (spec-modelled configuration) -/

/-- C6: against the modelled active rules for the `read` tool, arguments
holding both `filePath` and `content` convert the tool name to `write` with
both fields retained, while arguments lacking `filePath` do not convert. -/
theorem c6_read_write_conversion :
    apply_fixes yamlConfig "read".data
        (pdict [("filePath".data, pstr "a.py".data), ("content".data, pstr "x".data)]) =
      some ("write".data,
        pdict [("filePath".data, pstr "a.py".data), ("content".data, pstr "x".data)]) ∧
    apply_fixes yamlConfig "read".data (pdict [("content".data, pstr "x".data)]) =
      some ("read".data, pdict [("content".data, pstr "x".data)]) := by
  constructor <;> rfl

/-! ## Claim C9: apply_fixes lower-cases the returned tool name -/

/-- `_apply_single_fix` returns `False`, `True`, or exactly
`('write', True)`: the only tool-conversion outcome names the `write`
tool. -/
theorem apply_single_fix_cases (args : List (Chars × PyVal)) (fx : FixRule) :
    (apply_single_fix args fx).2 = FixOut.plain true ∨
    (apply_single_fix args fx).2 = FixOut.plain false ∨
    (apply_single_fix args fx).2 = FixOut.conv "write".data true := by
  unfold apply_single_fix fallbackOrFalse
  split_ifs <;> try simp
  all_goals repeat' split
  all_goals simp

/-- The `for fix in fixes` loop leaves the tool name unchanged unless a
conversion renames it to `write`. -/
theorem applyFixesLoop_name (fixes : List FixRule) :
    ∀ (entries : List (Chars × PyVal)) (nm : Chars),
    (applyFixesLoop fixes entries nm).2 = nm ∨
    (applyFixesLoop fixes entries nm).2 = "write".data := by
  induction fixes with
  | nil => intro entries nm; left; rfl
  | cons fx rest ih =>
    intro entries nm
    have hc := apply_single_fix_cases entries fx
    have hstep : applyFixesLoop (fx :: rest) entries nm =
        (match (apply_single_fix entries fx).2 with
         | FixOut.conv nm' _ => applyFixesLoop rest (apply_single_fix entries fx).1 nm'
         | FixOut.plain _ => applyFixesLoop rest (apply_single_fix entries fx).1 nm) := rfl
    rcases hc with hc | hc | hc <;> simp only [hstep, hc]
    · exact ih _ nm
    · exact ih _ nm
    · rcases ih (apply_single_fix entries fx).1 "write".data with h | h
      · right; exact h
      · right; exact h

/-- C9: under the case-insensitive setting, every successful
`apply_fixes` call returns either the lower-cased input tool name or the
conversion target `write` — mixed-case names never survive. -/
theorem c9_lowercase_tool_name (cfg : Config) (name : Chars) (v : PyVal)
    (r : Chars × PyVal)
    (hcase : cfg.case_sensitive_tools = false)
    (h : apply_fixes cfg name v = some r) :
    r.1 = pyLower name ∨ r.1 = "write".data := by
  unfold apply_fixes at h
  rw [hcase] at h
  simp only [Bool.false_eq_true, if_false] at h
  by_cases hfix : (lookupFixes cfg (pyLower name)).isEmpty
  · rw [if_pos hfix] at h
    left
    have : r = (pyLower name, v) := by
      apply Option.some.inj
      rw [← h]
    rw [this]
  · rw [if_neg hfix] at h
    cases v with
    | pdict entries =>
      simp only at h
      have : r = ((applyFixesLoop (lookupFixes cfg (pyLower name)) entries (pyLower name)).2,
          pdict (applyFixesLoop (lookupFixes cfg (pyLower name)) entries (pyLower name)).1) := by
        apply Option.some.inj
        rw [← h]
      rw [this]
      exact applyFixesLoop_name _ entries (pyLower name)
    | pnone => simp at h
    | pbool b => simp at h
    | pint n => simp at h
    | pfloat f => simp at h
    | pstr s => simp at h
    | plist l => simp at h

/-- C9 witness: `apply_fixes` on the mixed-case name `Bash` returns the
lower-cased `bash`. -/
theorem c9_witness :
    ("bash".data = pyLower "Bash".data ∨ "bash".data = "write".data) :=
  c9_lowercase_tool_name defaultConfig "Bash".data (pdict [])
    ("bash".data, pdict [("description".data,
      pstr "Execute the given shell command".data)]) rfl (by rfl)

/-! ## Claim C7: the XML converter -/

/-- `dSet` never produces an empty dict. -/
theorem dSet_ne_nil (d : List (Chars × PyVal)) (k : Chars) (v : PyVal) :
    dSet d k v ≠ [] := by
  cases d with
  | nil => simp [dSet]
  | cons p rest =>
    unfold dSet
    rcases p with ⟨k', v'⟩
    split_ifs <;> simp

/-- Folding `dSet` over parameters preserves non-emptiness. -/
theorem foldl_dSet_ne_nil (ps : List (Chars × Chars)) :
    ∀ (d : List (Chars × PyVal)), d ≠ [] →
    ps.foldl (fun d kv => dSet d (pyStrip kv.1) (pstr (pyStrip kv.2))) d ≠ [] := by
  induction ps with
  | nil => intro d hd; exact hd
  | cons p rest ih =>
    intro d hd
    simp only [List.foldl_cons]
    exact ih _ (dSet_ne_nil _ _ _)

/-- C7: the converter returns no call when the content holds no
`<function=NAME>` tag, and none when it holds no complete parameter tag —
it never returns a call with an empty argument map; on success the call
carries the stripped function name and the argument dict built from all
parameter matches with names and values stripped of surrounding
whitespace. -/
theorem c7_xml_converter (content : Chars) :
    (findFunctionName content = none →
      detect_and_convert_xml_tool_call content = none) ∧
    (findParams content = [] →
      detect_and_convert_xml_tool_call content = none) ∧
    (∀ fn args, detect_and_convert_xml_tool_call content = some (fn, args) →
      args ≠ [] ∧
      (∃ raw, findFunctionName content = some raw ∧ fn = pyStrip raw) ∧
      args = (findParams content).foldl
        (fun d kv => dSet d (pyStrip kv.1) (pstr (pyStrip kv.2))) []) := by
  refine ⟨?_, ?_, ?_⟩
  · intro h
    unfold detect_and_convert_xml_tool_call
    rw [h]
  · intro h
    unfold detect_and_convert_xml_tool_call
    cases hf : findFunctionName content with
    | none => rfl
    | some raw => simp [h]
  · intro fn args h
    unfold detect_and_convert_xml_tool_call at h
    cases hf : findFunctionName content with
    | none => rw [hf] at h; cases h
    | some raw =>
      rw [hf] at h
      by_cases hp : (findParams content).isEmpty
      · simp [hp] at h
      · simp only [hp, Bool.false_eq_true, if_false, Option.some.injEq] at h
        have hfn : fn = pyStrip raw := (Prod.mk.injEq _ _ _ _ ▸ h.symm).1
        have hargs : args = (findParams content).foldl
            (fun d kv => dSet d (pyStrip kv.1) (pstr (pyStrip kv.2))) [] :=
          (Prod.mk.injEq _ _ _ _ ▸ h.symm).2
        refine ⟨?_, ⟨raw, rfl, hfn⟩, hargs⟩
        rw [hargs]
        cases hps : findParams content with
        | nil => rw [hps] at hp; simp at hp
        | cons q qs =>
          simp only [List.foldl_cons]
          exact foldl_dSet_ne_nil qs _ (dSet_ne_nil _ _ _)

/-- C7 witness: concrete application on the spec's example content. -/
theorem c7_witness :
    ([("pattern".data, PyVal.pstr "*.py".data)] : List (Chars × PyVal)) ≠ [] :=
  ((c7_xml_converter
      "<function=glob><parameter=pattern>*.py</parameter></function>".data).2.2
    "glob".data [("pattern".data, PyVal.pstr "*.py".data)] (by rfl)).1

/-! ## Claim C8: duplicate detection -/

/-- C8: the duplicate-detection loop passes every outgoing tool call
through unchanged and in order (detection never suppresses the send); the
sent-signature list only grows by appending and stays duplicate-free, so
each signature occurs at most once; a call is unflagged only when its
signature was not yet sent; a flagged call's signature is already in the
final sent list; and sending the identical call twice flags the second
occurrence distinctly from the first. -/
theorem c8_duplicate_detection (sigs : List Chars) (tcs : List ToolCallDelta)
    (hnd : sigs.Nodup) :
    ((dupScan sigs tcs).2.map Prod.fst = tcs) ∧
    (∃ news, (dupScan sigs tcs).1 = sigs ++ news) ∧
    ((dupScan sigs tcs).1.Nodup) ∧
    (∀ p ∈ (dupScan sigs tcs).2, p.2 = false → sigOf p.1 ∉ sigs) ∧
    (∀ tc, sigOf tc ∉ sigs →
      (dupScan sigs [tc, tc]).2.map Prod.snd = [false, true]) := by
  refine ⟨?_, ?_, ?_, ?_, ?_⟩
  · clear hnd
    induction tcs generalizing sigs with
    | nil => rfl
    | cons tc rest ih =>
      unfold dupScan
      by_cases hm : sigOf tc ∈ sigs
      · simp only [hm, if_pos, List.map_cons]
        rw [ih sigs]
      · simp only [hm, if_neg, if_false, List.map_cons]
        rw [ih (sigs ++ [sigOf tc])]
  · clear hnd
    induction tcs generalizing sigs with
    | nil => exact ⟨[], (List.append_nil sigs).symm⟩
    | cons tc rest ih =>
      unfold dupScan
      by_cases hm : sigOf tc ∈ sigs
      · simp only [hm, if_pos]
        exact ih sigs
      · simp only [hm, if_neg, if_false]
        rcases ih (sigs ++ [sigOf tc]) with ⟨news, hn⟩
        exact ⟨sigOf tc :: news, by rw [hn, List.append_assoc]; rfl⟩
  · induction tcs generalizing sigs with
    | nil => exact hnd
    | cons tc rest ih =>
      unfold dupScan
      by_cases hm : sigOf tc ∈ sigs
      · simp only [hm, if_pos]
        exact ih sigs hnd
      · simp only [hm, if_neg, if_false]
        refine ih (sigs ++ [sigOf tc]) ?_
        simp [List.nodup_append, hnd, hm]
  · clear hnd
    induction tcs generalizing sigs with
    | nil => intro p hp; cases hp
    | cons tc rest ih =>
      intro p hp hflag
      unfold dupScan at hp
      by_cases hm : sigOf tc ∈ sigs
      · simp only [hm, if_pos] at hp
        rcases List.mem_cons.mp hp with h | h
        · rw [h] at hflag; cases hflag
        · exact ih sigs p h hflag
      · simp only [hm, if_neg, if_false] at hp
        rcases List.mem_cons.mp hp with h | h
        · rw [h]; exact hm
        · intro hmem
          exact (ih (sigs ++ [sigOf tc]) p h hflag)
            (List.mem_append.mpr (Or.inl hmem))
  · intro tc hm
    have hmem : sigOf tc ∈ sigs ++ [sigOf tc] :=
      List.mem_append.mpr (Or.inr (by simp))
    simp [dupScan, hm, hmem]

/-- C8 witness: concrete application — the identical call sent twice is
unflagged the first time and flagged the second. -/
theorem c8_witness :
    (dupScan []
      [{ tindex := some 0, tid := some "x".data,
         func := { fname := some "glob".data, farguments := some "a".data } },
       { tindex := some 0, tid := some "x".data,
         func := { fname := some "glob".data, farguments := some "a".data } }]).2.map
        Prod.snd = [false, true] :=
  (c8_duplicate_detection [] [] List.nodup_nil).2.2.2.2
    { tindex := some 0, tid := some "x".data,
      func := { fname := some "glob".data, farguments := some "a".data } }
    (by simp)

/-! ## Claim C10: process_sse_event touches only the first choice -/

/-- C10: an event with a missing or empty choices list is returned
unchanged (with the state and draw counter untouched), and for an event
with choices, every choice beyond the first passes through entirely
unmodified (and the first choice's finish_reason survives). -/
theorem c10_first_choice_only (cfg : Config) (us : Nat → Chars) (k : Nat)
    (st : PState) (ev : Event) :
    (ev.echoices = none → process_sse_event cfg us k st ev = (k, st, ev)) ∧
    (ev.echoices = some [] → process_sse_event cfg us k st ev = (k, st, ev)) ∧
    (∀ c0 rest, ev.echoices = some (c0 :: rest) →
      ∃ c0', (process_sse_event cfg us k st ev).2.2.echoices = some (c0' :: rest) ∧
        c0'.cfinish = c0.cfinish) := by
  refine ⟨?_, ?_, ?_⟩
  · intro h
    unfold process_sse_event
    rw [h]
  · intro h
    unfold process_sse_event
    rw [h]
  · intro c0 rest h
    have key : ∀ d : Delta, ∃ c0', (rebuildEvent c0 rest d).echoices =
        some (c0' :: rest) ∧ c0'.cfinish = c0.cfinish := by
      intro d
      by_cases hc : c0.cdelta.isSome
      · exact ⟨{ c0 with cdelta := some d }, by simp [rebuildEvent, hc], rfl⟩
      · exact ⟨c0, by simp [rebuildEvent, hc], rfl⟩
    unfold process_sse_event
    rw [h]
    simp only []
    cases hd : (contentPhase cfg us k st (c0.cdelta.getD {})).2.2.dtool_calls with
    | none => exact key _
    | some tcs => exact key _

/-- C10 witness: concrete application at an event with no choices key. -/
theorem c10_witness :
    process_sse_event defaultConfig (fun _ => []) 0 {} { echoices := none } =
      (0, {}, { echoices := none }) :=
  (c10_first_choice_only defaultConfig (fun _ => []) 0 {} { echoices := none }).1 rfl

/-! ## Supporting lemmas for the event-processor claims (C1, C3) -/

theorem aGet_aSet_self {α : Type} (d : List (Chars × α)) (k : Chars) (v : α) :
    aGet (aSet d k v) k = some v := by
  induction d with
  | nil => simp [aSet, aGet]
  | cons p rest ih =>
    rcases p with ⟨k', v'⟩
    unfold aSet
    by_cases h : k' = k
    · simp [aGet, h]
    · simp [aGet, h, ih]

theorem aGet_aSet_ne {α : Type} (d : List (Chars × α)) (k k' : Chars) (v : α)
    (h : k' ≠ k) : aGet (aSet d k v) k' = aGet d k' := by
  have hk : ¬(k = k') := fun hh => h hh.symm
  induction d with
  | nil =>
    unfold aSet aGet
    rw [if_neg hk]
    rfl
  | cons p rest ih =>
    rcases p with ⟨k0, v0⟩
    by_cases h0 : k0 = k
    · subst h0
      rw [show aSet ((k0, v0) :: rest) k0 v = (k0, v) :: rest from by
        simp [aSet]]
      unfold aGet
      rw [if_neg hk, if_neg hk]
    · rw [show aSet ((k0, v0) :: rest) k v = (k0, v0) :: aSet rest k v from by
        simp only [aSet]; rw [if_neg h0]]
      unfold aGet
      by_cases h1 : k0 = k'
      · rw [if_pos h1, if_pos h1]
      · rw [if_neg h1, if_neg h1]
        exact ih

theorem aGet_none_forall {α : Type} (d : List (Chars × α)) (k : Chars)
    (h : aGet d k = none) : ∀ p ∈ d, p.1 ≠ k := by
  induction d with
  | nil => intro p hp; cases hp
  | cons q rest ih =>
    intro p hp
    rcases q with ⟨k', v'⟩
    unfold aGet at h
    by_cases hk : k' = k
    · rw [if_pos hk] at h; cases h
    · rw [if_neg hk] at h
      rcases List.mem_cons.mp hp with he | he
      · rw [he]; exact hk
      · exact ih h p he

theorem aGet_aDel_none {α : Type} (d : List (Chars × α)) (k key : Chars)
    (h : aGet d key = none) : aGet (aDel d k) key = none := by
  induction d with
  | nil => rfl
  | cons p rest ih =>
    rcases p with ⟨k', v'⟩
    unfold aGet at h
    by_cases hk : k' = key
    · rw [if_pos hk] at h; cases h
    · rw [if_neg hk] at h
      unfold aDel
      by_cases hd : k' = k
      · rw [if_pos hd]; exact h
      · rw [if_neg hd]
        unfold aGet
        rw [if_neg hk]
        exact ih h

/-- Keys of an assoc list. -/
def aKeys {α : Type} (d : List (Chars × α)) : List Chars := d.map Prod.fst

/-- Number of bindings of a key (a Python dict always has at most one). -/
def kcount {α : Type} (d : List (Chars × α)) (k : Chars) : Nat :=
  (d.filter (fun p => p.1 = k)).length

theorem kcount_cons_eq {α : Type} (k' : Chars) (v' : α) (rest : List (Chars × α))
    (k : Chars) (h : k' = k) :
    kcount ((k', v') :: rest) k = kcount rest k + 1 := by
  simp [kcount, List.filter_cons, h]

theorem kcount_cons_ne {α : Type} (k' : Chars) (v' : α) (rest : List (Chars × α))
    (k : Chars) (h : ¬(k' = k)) :
    kcount ((k', v') :: rest) k = kcount rest k := by
  simp [kcount, List.filter_cons, h]

theorem kcount_zero_of_aGet_none {α : Type} (d : List (Chars × α)) (k : Chars)
    (h : aGet d k = none) : kcount d k = 0 := by
  induction d with
  | nil => rfl
  | cons p rest ih =>
    rcases p with ⟨k', v'⟩
    unfold aGet at h
    by_cases hk : k' = k
    · rw [if_pos hk] at h; cases h
    · rw [if_neg hk] at h
      rw [kcount_cons_ne k' v' rest k hk]
      exact ih h

theorem aGet_none_of_kcount_zero {α : Type} (d : List (Chars × α)) (k : Chars)
    (h : kcount d k = 0) : aGet d k = none := by
  induction d with
  | nil => rfl
  | cons p rest ih =>
    rcases p with ⟨k', v'⟩
    by_cases hk : k' = k
    · rw [kcount_cons_eq k' v' rest k hk] at h; cases h
    · rw [kcount_cons_ne k' v' rest k hk] at h
      unfold aGet
      rw [if_neg hk]
      exact ih h

theorem kcount_not_mem_zero {α : Type} (d : List (Chars × α)) (k : Chars)
    (h : k ∉ aKeys d) : kcount d k = 0 := by
  induction d with
  | nil => rfl
  | cons p rest ih =>
    rcases p with ⟨k', v'⟩
    simp only [aKeys, List.map_cons, List.mem_cons, not_or] at h
    rw [kcount_cons_ne k' v' rest k (fun he => h.1 he.symm)]
    exact ih h.2

theorem kcount_le_one_of_nodup {α : Type} (d : List (Chars × α)) (k : Chars)
    (h : (aKeys d).Nodup) : kcount d k ≤ 1 := by
  induction d with
  | nil => exact Nat.zero_le 1
  | cons p rest ih =>
    rcases p with ⟨k', v'⟩
    rw [show aKeys ((k', v') :: rest) = k' :: aKeys rest from rfl,
      List.nodup_cons] at h
    by_cases hk : k' = k
    · subst hk
      rw [kcount_cons_eq k' v' rest k' rfl, kcount_not_mem_zero rest k' h.1]
    · rw [kcount_cons_ne k' v' rest k hk]
      exact ih h.2

theorem kcount_aSet_le {α : Type} (d : List (Chars × α)) (k : Chars) (v : α)
    (h : kcount d k ≤ 1) : kcount (aSet d k v) k ≤ 1 := by
  induction d with
  | nil =>
    unfold aSet
    rw [kcount_cons_eq k v [] k rfl]
    exact Nat.le_refl 1
  | cons p rest ih =>
    rcases p with ⟨k', v'⟩
    unfold aSet
    by_cases hk : k' = k
    · rw [if_pos hk]
      rw [kcount_cons_eq k' v' rest k hk] at h
      rw [kcount_cons_eq k v rest k rfl]
      omega
    · rw [if_neg hk]
      rw [kcount_cons_ne k' v' rest k hk] at h
      rw [kcount_cons_ne k' v' (aSet rest k v) k hk]
      exact ih h

theorem aGet_aDel_self_of_kcount {α : Type} (d : List (Chars × α)) (k : Chars)
    (h : kcount d k ≤ 1) : aGet (aDel d k) k = none := by
  induction d with
  | nil => rfl
  | cons p rest ih =>
    rcases p with ⟨k', v'⟩
    unfold aDel
    by_cases hk : k' = k
    · rw [if_pos hk]
      apply aGet_none_of_kcount_zero
      rw [kcount_cons_eq k' v' rest k hk] at h
      omega
    · rw [if_neg hk]
      unfold aGet
      rw [if_neg hk]
      apply ih
      rw [kcount_cons_ne k' v' rest k hk] at h
      exact h

/-- `process_all_buffers` never creates a buffer under a key it was not
given. -/
theorem pab_preserves_none (cfg : Config) (bufs : List (Chars × PBuf)) (key : Chars)
    (h : aGet bufs key = none) :
    aGet (process_all_buffers cfg bufs) key = none := by
  have hall := aGet_none_forall bufs key h
  unfold process_all_buffers
  simp only []
  have h2 : ∀ (cids : List Chars) (bs : List (Chars × PBuf)), aGet bs key = none →
      aGet (cids.foldl (fun bs cid => aDel bs cid) bs) key = none := by
    intro cids
    induction cids with
    | nil => intro bs hbs; exact hbs
    | cons c cs ih =>
      intro bs hbs
      simp only [List.foldl_cons]
      exact ih _ (aGet_aDel_none bs c key hbs)
  apply h2
  have h1 : ∀ (l : List (Chars × PBuf)) (acc : List (Chars × PBuf) × List Chars),
      (∀ p ∈ l, p.1 ≠ key) → aGet acc.1 key = none →
      aGet ((l.foldl (fun acc p =>
        if p.2.content.isEmpty then (acc.1, acc.2 ++ [p.1])
        else
          let r := process_complete_buffer cfg p.2 p.2.tool_name p.2.content
          if ¬r.2.isEmpty ∧ validate_json_syntax r.2 then
            (aSet acc.1 p.1 { p.2 with content := r.2, tool_name := r.1 }, acc.2)
          else (acc.1, acc.2 ++ [p.1])) acc)).1 key = none := by
    intro l
    induction l with
    | nil => intro acc _ hacc; exact hacc
    | cons p rl ih =>
      intro acc hl hacc
      simp only [List.foldl_cons]
      apply ih _ (fun q hq => hl q (List.mem_cons_of_mem p hq))
      have hkp : key ≠ p.1 := fun hh => (hl p (List.mem_cons_self p rl)) hh.symm
      by_cases hc : p.2.content.isEmpty
      · simpa [hc] using hacc
      · simp only [hc, Bool.false_eq_true, if_false, ite_false]
        split_ifs with hg
        · simpa [aGet_aSet_ne acc.1 p.1 key _ hkp] using hacc
        · simpa using hacc
  exact h1 bufs (bufs, []) hall h

/-- Looking up a key after the "create the buffer if absent" idiom. -/
theorem ensure_get {α : Type} (d : List (Chars × α)) (key : Chars) (v : α) :
    aGet (if (aGet d key).isSome then d else aSet d key v) key =
      some ((aGet d key).getD v) := by
  cases h : aGet d key with
  | none => simp [h, aGet_aSet_self]
  | some b => simp [h]

/-- The "create if absent" idiom keeps the key's binding count at most 1. -/
theorem ensure_kcount {α : Type} (d : List (Chars × α)) (key : Chars) (v : α)
    (h : kcount d key ≤ 1) :
    kcount (if (aGet d key).isSome then d else aSet d key v) key ≤ 1 := by
  cases hh : aGet d key with
  | none =>
    simp only [hh, Option.isSome_none, Bool.false_eq_true, if_false, ite_false]
    exact kcount_aSet_le d key v h
  | some b => simpa [hh] using h

theorem enum_filter_frag (tcs : List ToolCallDelta)
    (h : ∀ tc ∈ tcs, classify tc = TCClass.frag) :
    tcs.enum.filter (fun p => decide (classify p.2 = TCClass.frag)) = tcs.enum := by
  suffices hs : ∀ (n : Nat) (l : List ToolCallDelta), (∀ tc ∈ l, classify tc = TCClass.frag) →
      (List.enumFrom n l).filter (fun p => decide (classify p.2 = TCClass.frag)) =
        List.enumFrom n l by
    exact hs 0 tcs h
  intro n l
  induction l generalizing n with
  | nil => intro _; rfl
  | cons a rl ih =>
    intro hl
    simp only [List.enumFrom, List.filter_cons]
    rw [if_pos (by simp [hl a (List.mem_cons_self a rl)])]
    rw [ih (n + 1) (fun tc htc => hl tc (List.mem_cons_of_mem a htc))]

theorem enum_filter_named_nil (tcs : List ToolCallDelta)
    (h : ∀ tc ∈ tcs, classify tc = TCClass.frag) :
    tcs.enum.filter (fun p => decide (classify p.2 = TCClass.namedFull)) = [] := by
  suffices hs : ∀ (n : Nat) (l : List ToolCallDelta), (∀ tc ∈ l, classify tc = TCClass.frag) →
      (List.enumFrom n l).filter (fun p => decide (classify p.2 = TCClass.namedFull)) = [] by
    exact hs 0 tcs h
  intro n l
  induction l generalizing n with
  | nil => intro _; rfl
  | cons a rl ih =>
    intro hl
    simp only [List.enumFrom, List.filter_cons]
    rw [if_neg (by simp [hl a (List.mem_cons_self a rl)])]
    exact ih (n + 1) (fun tc htc => hl tc (List.mem_cons_of_mem a htc))

theorem enum_map_fragdata (tcs : List ToolCallDelta) :
    tcs.enum.map (fun p => (p.2.tindex.getD 0, p.2.func.farguments.getD [])) =
      tcs.map (fun tc => (tc.tindex.getD 0, tc.func.farguments.getD [])) := by
  suffices hs : ∀ (n : Nat) (l : List ToolCallDelta),
      (List.enumFrom n l).map (fun p => (p.2.tindex.getD 0, p.2.func.farguments.getD [])) =
        l.map (fun tc => (tc.tindex.getD 0, tc.func.farguments.getD [])) by
    exact hs 0 tcs
  intro n l
  induction l generalizing n with
  | nil => rfl
  | cons a rl ih =>
    simp only [List.enumFrom, List.map_cons]
    rw [ih (n + 1)]

/-- Reduction of `process_sse_event` on an event whose tool-call entries
are all anonymous fragments: the processing collapses to the content-free
fragment phase, the optional finish-reason flush, and the final
`_suppress` filtering. -/
theorem psse_all_frag_reduction (cfg : Config) (us : Nat → Chars) (k : Nat)
    (st : PState) (ev : Event) (c0 : Choice) (rest : List Choice) (d : Delta)
    (tcs : List ToolCallDelta)
    (hch : ev.echoices = some (c0 :: rest))
    (hdelta : c0.cdelta = some d)
    (hcontent : d.dcontent = none ∨ d.dcontent = some [])
    (htc : d.dtool_calls = some tcs)
    (hfrag : ∀ tc ∈ tcs, classify tc = TCClass.frag) :
    process_sse_event cfg us k st ev =
      (let phB := fragmentPhase cfg us k st.tool_buffers
          (tcs.map (fun tc => (tc.tindex.getD 0, tc.func.farguments.getD [])))
          (tcs.enum.map (fun p => DItem.orig p.1))
       let bufsFinal := if c0.cfinish = some "tool_calls".data then
          process_all_buffers cfg phB.2.1
        else phB.2.1
       let outCalls := materialize tcs
          (tcs.map (fun t => decide (classify t = TCClass.header))) phB.2.2
       (phB.1,
        { st with tool_buffers := bufsFinal },
        rebuildEvent c0 rest { d with dtool_calls := outCalls })) := by
  have hcp : contentPhase cfg us k st d = (k, st, d) := by
    unfold contentPhase
    rcases hcontent with hc | hc <;> simp [hc]
  unfold process_sse_event
  rw [hch]
  simp only [hdelta, Option.getD_some, hcp]
  rw [htc]
  simp only []
  rw [enum_filter_frag tcs hfrag, enum_filter_named_nil tcs hfrag, enum_map_fragdata]
  simp only [List.map_nil, List.foldl_nil]

/-- Characterization of the fragment phase under the size cap: on
completeness with a successful fix-up and a known name, the delta list
becomes exactly one synthesized call and the shared buffer is deleted;
otherwise the delta list is emptied (all fragment output suppressed). -/
theorem fragmentPhase_spec (cfg : Config) (us : Nat → Chars) (k : Nat)
    (st : PState) (tcs : List ToolCallDelta) (dlist : List DItem)
    (hne : tcs ≠ [])
    (hkc : kcount st.tool_buffers mainKey ≤ 1)
    (hsize : utf8Len (mergedFragments st tcs) ≤ cfg.max_buffer_size) :
    ((¬(mergedFragments st tcs).isEmpty ∧
        is_json_complete (mergedFragments st tcs) = true ∧
        ¬(fragOutcome cfg st tcs).2.isEmpty ∧ ¬(fragOutcome cfg st tcs).1.isEmpty) →
      (fragmentPhase cfg us k st.tool_buffers
          (tcs.map (fun tc => (tc.tindex.getD 0, tc.func.farguments.getD []))) dlist).2.2 =
        [DItem.synth
          { tindex := some 0, tid := some ("call_".data ++ (us k).take 24),
            func := { fname := some (fragOutcome cfg st tcs).1,
                      farguments := some (fragOutcome cfg st tcs).2 } }] ∧
      aGet (fragmentPhase cfg us k st.tool_buffers
          (tcs.map (fun tc => (tc.tindex.getD 0, tc.func.farguments.getD []))) dlist).2.1
        mainKey = none) ∧
    (¬(¬(mergedFragments st tcs).isEmpty ∧
        is_json_complete (mergedFragments st tcs) = true ∧
        ¬(fragOutcome cfg st tcs).2.isEmpty ∧ ¬(fragOutcome cfg st tcs).1.isEmpty) →
      (fragmentPhase cfg us k st.tool_buffers
          (tcs.map (fun tc => (tc.tindex.getD 0, tc.func.farguments.getD []))) dlist).2.2 =
        []) := by
  have hfne : ((tcs.map (fun tc => (tc.tindex.getD 0, tc.func.farguments.getD []))).isEmpty) = false := by
    cases tcs with
    | nil => exact absurd rfl hne
    | cons a l => rfl
  have hget := ensure_get st.tool_buffers mainKey (⟨mainKey, [], []⟩ : PBuf)
  unfold fragmentPhase
  simp only [hfne, Bool.false_eq_true, if_false, ite_false, hget, Option.getD_some]
  rw [show ((aGet st.tool_buffers mainKey).getD ⟨mainKey, [], []⟩).content ++
      ((sortByKey (tcs.map (fun tc =>
        (tc.tindex.getD 0, tc.func.farguments.getD [])))).map (·.2)).foldl (· ++ ·) [] =
      mergedFragments st tcs from rfl]
  rw [if_neg (by omega : ¬(utf8Len (mergedFragments st tcs) > cfg.max_buffer_size))]
  constructor
  · intro hh
    rcases hh with ⟨h1, h2, h3, h4⟩
    rw [if_pos ⟨h1, h2⟩]
    rw [if_pos ⟨h3, h4⟩]
    constructor
    · rfl
    · apply aGet_aDel_self_of_kcount
      apply kcount_aSet_le
      apply kcount_aSet_le
      exact ensure_kcount st.tool_buffers mainKey ⟨mainKey, [], []⟩ hkc
  · intro hh
    by_cases hab : ¬(mergedFragments st tcs).isEmpty = true ∧
        is_json_complete (mergedFragments st tcs) = true
    · rw [if_pos hab]
      rw [if_neg (fun hcd => hh ⟨hab.1, hab.2, hcd.1, hcd.2⟩)]
    · rw [if_neg hab]

/-! ## Claim C1: anonymous-fragment processing -/

/-- C1 counterexample: the single anonymous fragment `{"pattern" "x"}` is
complete per the completeness check and its tool name is inferable
(`glob`), yet the processor suppresses the event's tool calls instead of
replacing them with one synthesized call, because the text does not parse
as JSON (`get_fixed_arguments` fails); the claim's case split
(complete → synthesize, else suppress) is therefore wrong about the code. -/
theorem c1_counterexample :
    is_json_complete
      ['{', '"', 'p', 'a', 't', 't', 'e', 'r', 'n', '"', ' ', '"', 'x', '"', '}'] = true ∧
    infer_tool_name_from_content
      ['{', '"', 'p', 'a', 't', 't', 'e', 'r', 'n', '"', ' ', '"', 'x', '"', '}'] =
      "glob".data ∧
    (process_sse_event defaultConfig
        (fun _ => "0123456789abcdef0123456789abcdef".data) 0 ⟨[], [], []⟩
        ⟨some [⟨some ⟨none, some [⟨some 0, none,
          ⟨none, some ['{', '"', 'p', 'a', 't', 't', 'e', 'r', 'n', '"', ' ', '"', 'x', '"', '}']⟩⟩]⟩,
          none⟩]⟩).2.2 =
      ⟨some [⟨some ⟨none, none⟩, none⟩]⟩ := by
  refine ⟨rfl, rfl, rfl⟩

/-- C1 (amended): for every SSE event whose delta contains only anonymous
fragments (argument entries with no truthy identifier) and no content, the
fragments are appended to the shared sentinel buffer in ascending order of
their declared index; when the accumulated text passes the completeness
check *and parses as JSON with a determinable tool name (fix-up succeeds)*,
the event's tool-call list is replaced by exactly one synthesized call
carrying index 0, a fresh identifier `call_` + 24 lowercase hex characters,
the (possibly inferred) tool name and the fixed-up argument text, and the
shared buffer is deleted; otherwise (text incomplete, unparseable, or no
tool name) all fragment-sourced tool calls are suppressed. -/
theorem c1_amended (cfg : Config) (us : Nat → Chars) (k : Nat)
    (st : PState) (ev : Event) (c0 : Choice) (rest : List Choice) (d : Delta)
    (tcs : List ToolCallDelta)
    (hch : ev.echoices = some (c0 :: rest))
    (hdelta : c0.cdelta = some d)
    (hcontent : d.dcontent = none ∨ d.dcontent = some [])
    (htc : d.dtool_calls = some tcs)
    (hne : tcs ≠ [])
    (hanon : ∀ tc ∈ tcs, idTruthy tc = false ∧ (tc.func.farguments).isSome = true)
    (hnodup : (aKeys st.tool_buffers).Nodup)
    (hsize : utf8Len (mergedFragments st tcs) ≤ cfg.max_buffer_size)
    (hus : (us k).length = 32 ∧ ∀ c ∈ us k, isLowerHex c = true) :
    ((¬(mergedFragments st tcs).isEmpty ∧
        is_json_complete (mergedFragments st tcs) = true ∧
        ¬(fragOutcome cfg st tcs).2.isEmpty ∧ ¬(fragOutcome cfg st tcs).1.isEmpty) →
      (process_sse_event cfg us k st ev).2.2 =
        rebuildEvent c0 rest
          { d with
            dtool_calls := some
              [{ tindex := some 0, tid := some ("call_".data ++ (us k).take 24),
                 func := { fname := some (fragOutcome cfg st tcs).1,
                           farguments := some (fragOutcome cfg st tcs).2 } }] } ∧
      aGet (process_sse_event cfg us k st ev).2.1.tool_buffers mainKey = none ∧
      ((us k).take 24).length = 24 ∧
      (∀ c ∈ (us k).take 24, isLowerHex c = true)) ∧
    ((¬(¬(mergedFragments st tcs).isEmpty ∧
        is_json_complete (mergedFragments st tcs) = true ∧
        ¬(fragOutcome cfg st tcs).2.isEmpty ∧ ¬(fragOutcome cfg st tcs).1.isEmpty)) →
      (process_sse_event cfg us k st ev).2.2 =
        rebuildEvent c0 rest { d with dtool_calls := none }) := by
  have hfrag : ∀ tc ∈ tcs, classify tc = TCClass.frag := by
    intro tc htcm
    rcases hanon tc htcm with ⟨h1, h2⟩
    unfold classify
    rw [h1]
    simp [h2]
  have hred := psse_all_frag_reduction cfg us k st ev c0 rest d tcs
    hch hdelta hcontent htc hfrag
  have hkc := kcount_le_one_of_nodup st.tool_buffers mainKey hnodup
  have hspec := fragmentPhase_spec cfg us k st tcs
    (tcs.enum.map (fun p => DItem.orig p.1)) hne hkc hsize
  rw [hred]
  simp only []
  constructor
  · intro hh
    obtain ⟨hd2, hbuf⟩ := hspec.1 hh
    refine ⟨?_, ?_, ?_, ?_⟩
    · rw [hd2]
      rfl
    · by_cases hfin : c0.cfinish = some "tool_calls".data
      · rw [if_pos hfin]
        exact pab_preserves_none cfg _ mainKey hbuf
      · rw [if_neg hfin]
        exact hbuf
    · rw [List.length_take, hus.1]
      rfl
    · intro c hc
      exact hus.2 c (List.mem_of_mem_take hc)
  · intro hh
    have hd2 := hspec.2 hh
    rw [hd2]
    rfl

/-- C1 witness: concrete application of the amended theorem on two
anonymous fragments completing a glob call. -/
theorem c1_witness :
    (process_sse_event defaultConfig usW 0 stW evW).2.2 =
      rebuildEvent c0W []
        { dW with
          dtool_calls := some
            [⟨some 0, some ("call_".data ++ (usW 0).take 24),
              ⟨some (fragOutcome defaultConfig stW [tcW1, tcW2]).1,
               some (fragOutcome defaultConfig stW [tcW1, tcW2]).2⟩⟩] } := by
  have h := (c1_amended defaultConfig usW 0 stW evW c0W [] dW [tcW1, tcW2]
    rfl rfl (Or.inl rfl) rfl (List.cons_ne_nil _ _)
    (by
      intro tc htc
      rcases List.mem_cons.mp htc with h | h
      · subst h; exact ⟨rfl, rfl⟩
      · rcases List.mem_cons.mp h with h2 | h2
        · subst h2; exact ⟨rfl, rfl⟩
        · cases h2)
    List.nodup_nil (by decide) ⟨by decide, by decide⟩).1 (by decide)
  exact h.1

/-! ## Claim C3: named continuations merged into the shared buffer -/

theorem ensure_preserves_ne {α : Type} (d : List (Chars × α)) (cid key : Chars)
    (v : α) (h : key ≠ cid) :
    aGet (if (aGet d cid).isSome then d else aSet d cid v) key = aGet d key := by
  cases hh : aGet d cid with
  | none =>
    simp only [hh, Option.isSome_none, Bool.false_eq_true, if_false, ite_false]
    exact aGet_aSet_ne d cid key v h
  | some b => simp [hh]

theorem kcount_aSet_ne {α : Type} (d : List (Chars × α)) (k key : Chars) (v : α)
    (h : ¬(k = key)) : kcount (aSet d k v) key = kcount d key := by
  induction d with
  | nil =>
    unfold aSet
    rw [kcount_cons_ne k v [] key h]
  | cons p rest ih =>
    rcases p with ⟨k', v'⟩
    by_cases hk : k' = k
    · subst hk
      rw [show aSet ((k', v') :: rest) k' v = (k', v) :: rest from by simp [aSet]]
      rw [kcount_cons_ne k' v rest key h, kcount_cons_ne k' v' rest key h]
    · rw [show aSet ((k', v') :: rest) k v = (k', v') :: aSet rest k v from by
        simp only [aSet]; rw [if_neg hk]]
      by_cases hky : k' = key
      · rw [kcount_cons_eq k' v' (aSet rest k v) key hky,
          kcount_cons_eq k' v' rest key hky, ih]
      · rw [kcount_cons_ne k' v' (aSet rest k v) key hky,
          kcount_cons_ne k' v' rest key hky, ih]

theorem ensure_kcount_ne {α : Type} (d : List (Chars × α)) (cid key : Chars)
    (v : α) (h : ¬(cid = key)) :
    kcount (if (aGet d cid).isSome then d else aSet d cid v) key = kcount d key := by
  cases hh : aGet d cid with
  | none =>
    simp only [hh, Option.isSome_none, Bool.false_eq_true, if_false, ite_false]
    exact kcount_aSet_ne d cid key v h
  | some b => simp [hh]

theorem aGet_aDel_ne {α : Type} (d : List (Chars × α)) (k key : Chars)
    (h : ¬(k = key)) : aGet (aDel d k) key = aGet d key := by
  induction d with
  | nil => rfl
  | cons p rest ih =>
    rcases p with ⟨k', v'⟩
    unfold aDel
    by_cases hk : k' = k
    · rw [if_pos hk]
      rw [show aGet ((k', v') :: rest) key = aGet rest key from by
        simp only [aGet]; rw [if_neg (by rw [hk]; exact h)]]
    · rw [if_neg hk]
      unfold aGet
      by_cases hky : k' = key
      · rw [if_pos hky, if_pos hky]
      · rw [if_neg hky, if_neg hky]
        exact ih

theorem kcount_aDel_le {α : Type} (d : List (Chars × α)) (k key : Chars) :
    kcount (aDel d k) key ≤ kcount d key := by
  induction d with
  | nil => exact Nat.le_refl _
  | cons p rest ih =>
    rcases p with ⟨k', v'⟩
    unfold aDel
    by_cases hk : k' = k
    · rw [if_pos hk]
      by_cases hky : k' = key
      · rw [kcount_cons_eq k' v' rest key hky]
        omega
      · rw [kcount_cons_ne k' v' rest key hky]
    · rw [if_neg hk]
      by_cases hky : k' = key
      · rw [kcount_cons_eq k' v' (aDel rest k) key hky,
          kcount_cons_eq k' v' rest key hky]
        omega
      · rw [kcount_cons_ne k' v' (aDel rest k) key hky,
          kcount_cons_ne k' v' rest key hky]
        exact ih

/-- Reduction of `process_sse_event` on an event with a single named
tool-call entry carrying arguments: the processing collapses to one
`namedStep` iteration, the optional finish-reason flush, and the final
`_suppress` filtering. -/
theorem psse_single_named_reduction (cfg : Config) (us : Nat → Chars) (k : Nat)
    (st : PState) (ev : Event) (c0 : Choice) (rest : List Choice) (d : Delta)
    (tc : ToolCallDelta)
    (hch : ev.echoices = some (c0 :: rest))
    (hdelta : c0.cdelta = some d)
    (hcontent : d.dcontent = none ∨ d.dcontent = some [])
    (htc : d.dtool_calls = some [tc])
    (hclass : classify tc = TCClass.namedFull) :
    process_sse_event cfg us k st ev =
      (let s1 := namedStep cfg us ⟨k, st.tool_buffers, [tc], [false], [DItem.orig 0]⟩ 0
       (s1.k,
        { st with tool_buffers := if c0.cfinish = some "tool_calls".data then
            process_all_buffers cfg s1.bufs else s1.bufs },
        rebuildEvent c0 rest { d with dtool_calls := materialize s1.origs s1.flags s1.dlist })) := by
  have hcp : contentPhase cfg us k st d = (k, st, d) := by
    unfold contentPhase
    rcases hcontent with hc | hc <;> simp [hc]
  unfold process_sse_event
  rw [hch]
  simp only [hdelta, Option.getD_some, hcp]
  rw [htc]
  simp only []
  rw [show ([tc] : List ToolCallDelta).enum = [(0, tc)] from rfl]
  simp only [List.filter_cons, List.filter_nil, hclass, List.map_cons, List.map_nil]
  simp only [show decide (TCClass.namedFull = TCClass.frag) = false from rfl,
    show decide (TCClass.namedFull = TCClass.header) = false from rfl,
    decide_True, Bool.false_eq_true, if_false, ite_false, if_true, ite_true,
    List.map_nil, List.map_cons]
  rw [show fragmentPhase cfg us k st.tool_buffers [] [DItem.orig 0] =
    (k, st.tool_buffers, [DItem.orig 0]) from rfl]
  simp only [List.foldl_cons, List.foldl_nil]

theorem kcount_ite {α : Type} (c : Prop) [Decidable c] (d : List (Chars × α))
    (key : Chars) (v : α) (h : kcount d key ≤ 1) :
    kcount (if c then d else aSet d key v) key ≤ 1 := by
  split_ifs
  · exact h
  · exact kcount_aSet_le d key v h

theorem kcount_ite_ne {α : Type} (c : Prop) [Decidable c] (d : List (Chars × α))
    (k key : Chars) (v : α) (h : ¬(k = key)) :
    kcount (if c then d else aSet d k v) key = kcount d key := by
  split_ifs
  · rfl
  · exact kcount_aSet_ne d k key v h

/-- Lookup through a "create if absent" whose condition was computed on an
equal map. -/
theorem ensure_get2 {α : Type} (d2 d : List (Chars × α)) (key : Chars) (v : α)
    (h : aGet d2 key = aGet d key) :
    aGet (if (aGet d2 key).isSome then d2 else aSet d2 key v) key =
      some ((aGet d key).getD v) := by
  cases hh : aGet d key with
  | none =>
    rw [h, hh]
    simp only [Option.isSome_none, Bool.false_eq_true, if_false, ite_false,
      Option.getD_none]
    exact aGet_aSet_self d2 key v
  | some b =>
    rw [h, hh]
    simp only [Option.isSome_some, if_true, ite_true, Option.getD_some]
    rw [h, hh]

set_option maxHeartbeats 3200000 in
/-- Characterization of one named-continuation step (the id-keyed buffer
is always fresh here: the processor deletes it in every path, so no
reachable state retains one).  The entry is suppressed, the merge follows
the direction rule, the id-keyed buffer is deleted, and the immediate
re-check either appends one synthesized merged call and deletes the shared
buffer, or leaves the merged shared buffer in place with nothing emitted. -/
theorem namedStep_spec (cfg : Config) (us : Nat → Chars) (k : Nat) (st : PState)
    (tc : ToolCallDelta) (cid nm frag : Chars) (dlist : List DItem)
    (hid : tc.tid = some cid)
    (hnm : tc.func.fname.getD [] = nm)
    (hargs : tc.func.farguments = some frag)
    (hfragne : frag ≠ [])
    (hcidmain : ¬(cid = mainKey))
    (hcid0 : aGet st.tool_buffers cid = none)
    (hnodup : (aKeys st.tool_buffers).Nodup)
    (hinc : is_json_complete (accContent st cid nm frag) = false) :
    ((namedStep cfg us ⟨k, st.tool_buffers, [tc], [false], dlist⟩ 0).origs = [tc] ∧
     (namedStep cfg us ⟨k, st.tool_buffers, [tc], [false], dlist⟩ 0).flags = [true]) ∧
    ((is_json_complete (mergedNamedContent st cid nm frag) = true ∧
      ¬(namedOutcome cfg st cid nm frag).2.isEmpty ∧
      ¬(namedOutcome cfg st cid nm frag).1.isEmpty) →
      (namedStep cfg us ⟨k, st.tool_buffers, [tc], [false], dlist⟩ 0).dlist =
        dlist ++ [DItem.synth ⟨some 0, some ("call_".data ++ (us k).take 24),
          ⟨some (namedOutcome cfg st cid nm frag).1,
           some (namedOutcome cfg st cid nm frag).2⟩⟩] ∧
      aGet (namedStep cfg us ⟨k, st.tool_buffers, [tc], [false], dlist⟩ 0).bufs
        mainKey = none ∧
      aGet (namedStep cfg us ⟨k, st.tool_buffers, [tc], [false], dlist⟩ 0).bufs
        cid = none) ∧
    (¬(is_json_complete (mergedNamedContent st cid nm frag) = true ∧
      ¬(namedOutcome cfg st cid nm frag).2.isEmpty ∧
      ¬(namedOutcome cfg st cid nm frag).1.isEmpty) →
      (namedStep cfg us ⟨k, st.tool_buffers, [tc], [false], dlist⟩ 0).dlist = dlist ∧
      aGet (namedStep cfg us ⟨k, st.tool_buffers, [tc], [false], dlist⟩ 0).bufs
        mainKey = some ⟨(mainOld st).call_id, mergedNamedContent st cid nm frag,
          mergedNamedName st cid nm⟩ ∧
      aGet (namedStep cfg us ⟨k, st.tool_buffers, [tc], [false], dlist⟩ 0).bufs
        cid = none) := by
  have hmaincid : ¬(mainKey = cid) := fun he => hcidmain he.symm
  have hKc := kcount_le_one_of_nodup st.tool_buffers cid hnodup
  have hKm := kcount_le_one_of_nodup st.tool_buffers mainKey hnodup
  have hfne : frag.isEmpty = false := by
    cases frag with
    | nil => exact absurd rfl hfragne
    | cons a l => rfl
  have haccfrag : accContent st cid nm frag = frag := by
    unfold accContent
    rw [hcid0]
    simp
  rw [haccfrag] at hinc
  have hAfter : ∀ (b3 : List (Chars × PBuf)) (v : PBuf),
      kcount b3 cid ≤ 1 → kcount b3 mainKey ≤ 1 →
      aGet (aDel (aSet b3 mainKey v) cid) cid = none ∧
      aGet (aDel (aSet b3 mainKey v) cid) mainKey = some v ∧
      aGet (aDel (aDel (aSet b3 mainKey v) cid) mainKey) cid = none ∧
      aGet (aDel (aDel (aSet b3 mainKey v) cid) mainKey) mainKey = none := by
    intro b3 v h1 h2
    have g1 : aGet (aDel (aSet b3 mainKey v) cid) cid = none := by
      refine aGet_aDel_self_of_kcount _ _ ?_
      rw [kcount_aSet_ne _ _ _ _ hmaincid]
      exact h1
    refine ⟨g1, ?_, ?_, ?_⟩
    · rw [aGet_aDel_ne _ _ _ hcidmain, aGet_aSet_self]
    · rw [aGet_aDel_ne _ _ _ hmaincid]
      exact g1
    · exact aGet_aDel_self_of_kcount _ _
        (le_trans (kcount_aDel_le _ _ _) (kcount_aSet_le _ _ _ h2))
  have kc2 : kcount (aSet (aSet st.tool_buffers cid ⟨cid, [], nm⟩) cid
      ⟨cid, frag, nm⟩) cid ≤ 1 :=
    kcount_aSet_le _ _ _ (kcount_aSet_le _ _ _ hKc)
  have km2 : kcount (aSet (aSet st.tool_buffers cid ⟨cid, [], nm⟩) cid
      ⟨cid, frag, nm⟩) mainKey ≤ 1 := by
    rw [kcount_aSet_ne _ _ _ _ hcidmain, kcount_aSet_ne _ _ _ _ hcidmain]
    exact hKm
  have kc3 : kcount (aSet (aSet (aSet st.tool_buffers cid ⟨cid, [], nm⟩) cid
      ⟨cid, frag, nm⟩) mainKey ⟨mainKey, [], []⟩) cid ≤ 1 := by
    rw [kcount_aSet_ne _ _ _ _ hmaincid]
    exact kc2
  have km3 : kcount (aSet (aSet (aSet st.tool_buffers cid ⟨cid, [], nm⟩) cid
      ⟨cid, frag, nm⟩) mainKey ⟨mainKey, [], []⟩) mainKey ≤ 1 :=
    kcount_aSet_le _ _ _ km2
  have hA1 := fun v => hAfter _ v kc2 km2
  have hA2 := fun v => hAfter _ v kc3 km3
  have hb2main : aGet (aSet (aSet st.tool_buffers cid ⟨cid, [], nm⟩) cid
      ⟨cid, frag, nm⟩) mainKey = aGet st.tool_buffers mainKey := by
    rw [aGet_aSet_ne _ _ _ _ hmaincid, aGet_aSet_ne _ _ _ _ hmaincid]
  unfold namedStep
  simp only [mergedNamedContent, mergedNamedName, namedOutcome, accContent,
    accName, mainOld, List.get?_cons_zero, hid, Option.getD_some, hargs, hnm,
    hcid0, Option.isSome_none, Bool.false_eq_true, if_false, ite_false,
    aGet_aSet_self, Option.getD_none, List.nil_append, hinc, and_false,
    true_and, and_true, false_and, hfne, not_false_iff, if_true, ite_true,
    ite_self, List.set]
  rw [ensure_get2 _ st.tool_buffers mainKey ⟨mainKey, [], []⟩ hb2main]
  simp only [Option.getD_some]
  split_ifs <;>
    first
      | exact ⟨⟨rfl, rfl⟩,
          fun hp => ⟨rfl, (hA1 _).2.2.2, (hA1 _).2.2.1⟩,
          fun hnp => False.elim (by tauto)⟩
      | exact ⟨⟨rfl, rfl⟩,
          fun hp => ⟨rfl, (hA2 _).2.2.2, (hA2 _).2.2.1⟩,
          fun hnp => False.elim (by tauto)⟩
      | exact ⟨⟨rfl, rfl⟩,
          fun hp => False.elim (by tauto),
          fun hnp => ⟨rfl, (hA1 _).2.1, (hA1 _).1⟩⟩
      | exact ⟨⟨rfl, rfl⟩,
          fun hp => False.elim (by tauto),
          fun hnp => ⟨rfl, (hA2 _).2.1, (hA2 _).1⟩⟩

/-- C3 counterexample: after an anonymous tail-half fragment has filled the
shared buffer, a named glob call with head-half arguments (an identifier, a
non-empty name, non-empty argument text, accumulated text incomplete) is
merged with the claimed direction rule and the merged text passes the
completeness re-check, yet the processor emits nothing in that event (the
tool-call list is removed) and keeps the merged shared buffer, because the
merged text does not parse as JSON; the claim's unconditional
"if complete, a single merged call is emitted within that same event" is
therefore wrong about the code. -/
theorem c3_counterexample :
    (process_sse_event defaultConfig usW 0 ⟨[], [], []⟩ evC3a).2.1 = stC3 ∧
    is_json_complete (accContent stC3 "a".data "glob".data argsC3) = false ∧
    is_json_complete (mergedNamedContent stC3 "a".data "glob".data argsC3) = true ∧
    (process_sse_event defaultConfig usW 0 stC3 evC3b).2.2 =
      ⟨some [⟨some ⟨none, none⟩, none⟩]⟩ ∧
    aGet (process_sse_event defaultConfig usW 0 stC3 evC3b).2.1.tool_buffers
      mainKey = some ⟨mainKey, argsC3 ++ ['"', 'x', '"', '}'], "glob".data⟩ := by
  refine ⟨rfl, rfl, rfl, rfl, rfl⟩

/-- C3 (amended): for every SSE event whose delta has no content and a
single tool-call entry with a truthy identifier, a non-empty tool name and
non-empty argument text whose accumulated text is not yet syntactically
complete, the entry is suppressed from output and merged into the shared
fragment buffer with the claimed direction rule (shared buffer as prefix
when its existing text starts with an opener, else as suffix), the
id-keyed buffer is deleted, and completeness of the merged text is
re-checked immediately: *if the merged text is complete and moreover
parses, with a non-empty fixed-up argument text and a non-empty final tool
name*, a single merged call (index 0, fresh identifier) is emitted within
that same event and the shared buffer is deleted; otherwise nothing is
emitted in the event and the merged shared buffer is kept. -/
theorem c3_amended (cfg : Config) (us : Nat → Chars) (k : Nat)
    (st : PState) (ev : Event) (c0 : Choice) (rest : List Choice) (d : Delta)
    (tc : ToolCallDelta) (cid nm frag : Chars)
    (hch : ev.echoices = some (c0 :: rest))
    (hdelta : c0.cdelta = some d)
    (hcontent : d.dcontent = none ∨ d.dcontent = some [])
    (htc : d.dtool_calls = some [tc])
    (hclass : classify tc = TCClass.namedFull)
    (hid : tc.tid = some cid)
    (hnm : tc.func.fname.getD [] = nm)
    (hargs : tc.func.farguments = some frag)
    (hfragne : frag ≠ [])
    (hcidmain : ¬(cid = mainKey))
    (hcid0 : aGet st.tool_buffers cid = none)
    (hnodup : (aKeys st.tool_buffers).Nodup)
    (hinc : is_json_complete (accContent st cid nm frag) = false)
    (hfin : ¬(c0.cfinish = some "tool_calls".data)) :
    ((is_json_complete (mergedNamedContent st cid nm frag) = true ∧
      ¬(namedOutcome cfg st cid nm frag).2.isEmpty ∧
      ¬(namedOutcome cfg st cid nm frag).1.isEmpty) →
      (process_sse_event cfg us k st ev).2.2 =
        rebuildEvent c0 rest
          { d with
            dtool_calls := some
              [⟨some 0, some ("call_".data ++ (us k).take 24),
                ⟨some (namedOutcome cfg st cid nm frag).1,
                 some (namedOutcome cfg st cid nm frag).2⟩⟩] } ∧
      aGet (process_sse_event cfg us k st ev).2.1.tool_buffers mainKey = none ∧
      aGet (process_sse_event cfg us k st ev).2.1.tool_buffers cid = none) ∧
    (¬(is_json_complete (mergedNamedContent st cid nm frag) = true ∧
      ¬(namedOutcome cfg st cid nm frag).2.isEmpty ∧
      ¬(namedOutcome cfg st cid nm frag).1.isEmpty) →
      (process_sse_event cfg us k st ev).2.2 =
        rebuildEvent c0 rest { d with dtool_calls := none } ∧
      aGet (process_sse_event cfg us k st ev).2.1.tool_buffers mainKey =
        some ⟨(mainOld st).call_id, mergedNamedContent st cid nm frag,
          mergedNamedName st cid nm⟩ ∧
      aGet (process_sse_event cfg us k st ev).2.1.tool_buffers cid = none) := by
  have hred := psse_single_named_reduction cfg us k st ev c0 rest d tc
    hch hdelta hcontent htc hclass
  have hspec := namedStep_spec cfg us k st tc cid nm frag [DItem.orig 0]
    hid hnm hargs hfragne hcidmain hcid0 hnodup hinc
  obtain ⟨⟨ho, hf⟩, hemit, hkeep⟩ := hspec
  rw [hred]
  simp only []
  rw [if_neg hfin]
  constructor
  · intro hp
    obtain ⟨hd2, hm, hc⟩ := hemit hp
    refine ⟨?_, ?_, ?_⟩
    · rw [hd2, ho, hf]
      rfl
    · exact hm
    · exact hc
  · intro hp
    obtain ⟨hd2, hm, hc⟩ := hkeep hp
    refine ⟨?_, ?_, ?_⟩
    · rw [hd2, ho, hf]
      rfl
    · exact hm
    · exact hc

/-- C3 witness: with the tail half of the claim's split-brace example in
the shared buffer, the named glob call carrying the opening brace merges
(continuation as prefix), the merged text is the complete, parseable glob
argument object, and a single merged call with index 0 and a fresh
identifier is emitted within that same event while both buffers are
deleted. -/
theorem c3_witness :
    (process_sse_event defaultConfig usW 0 stC3e evC3w).2.2 =
      rebuildEvent ⟨some dC3w, none⟩ []
        { dC3w with
          dtool_calls := some
            [⟨some 0, some ("call_".data ++ (usW 0).take 24),
              ⟨some (namedOutcome defaultConfig stC3e "a".data "glob".data ['{']).1,
               some (namedOutcome defaultConfig stC3e "a".data "glob".data ['{']).2⟩⟩] } ∧
    aGet (process_sse_event defaultConfig usW 0 stC3e evC3w).2.1.tool_buffers
      mainKey = none ∧
    aGet (process_sse_event defaultConfig usW 0 stC3e evC3w).2.1.tool_buffers
      "a".data = none := by
  exact (c3_amended defaultConfig usW 0 stC3e evC3w ⟨some dC3w, none⟩ [] dC3w
    tcC3w "a".data "glob".data ['{'] rfl rfl (Or.inl rfl) rfl (by decide) rfl
    rfl rfl (by decide) (by decide) rfl (by decide) (by decide)
    (by decide)).1 (by decide)

end Qwen3Proxy